import Mathlib

/-!
Verification of the formation engine and match clock of openfootmanager.

The embedding models `src/ofm/core/football/formation.py` and
`src/ofm/core/simulation/simulation.py`.  Python objects of class
`PlayerSimulation` are mutable and shared between the live slot lists and
history mementos, so the embedding uses an explicit heap (a list of
`PSim` values indexed by references); Python lists of players become
lists of references, list `copy()` becomes reusing the same reference
list value, and `copy(obj)` becomes allocating a fresh cell with the same
value.  Python `==` on these dataclass objects is structural equality of
their current field values, modelled by comparing dereferenced values.
-/

namespace OFM

/-- Modelled from the spec: the enumerated position set
{Goalkeeper, Defender, Midfielder, Forward} of the missing
`ofm/core/football/player.py`, with enum `value`s ordered
goalkeeper < defender < midfielder < forward (spec section 4.1:
bench "ordered ascending by position rank"). -/
inductive Positions where
  | GK
  | DF
  | MF
  | FW
deriving DecidableEq, Repr, Inhabited

/-- Modelled from the spec: the numeric `value` of the position enum,
ascending in position rank. -/
def Positions.value : Positions → Nat
  | .GK => 1
  | .DF => 2
  | .MF => 3
  | .FW => 4

/-- Modelled from the spec: a static roster entry of the missing
`player.py`, exposing an intrinsic best position
(`details.get_best_position()`) and a per-position rating table
(`details.attributes.get_overall(position)`).  `pid` stands for the
player's unique id; distinct roster members have distinct ids. -/
structure PlayerTeam where
  pid : Nat
  best_position : Positions
  rGK : Int
  rDF : Int
  rMF : Int
  rFW : Int
deriving DecidableEq, Repr, Inhabited

/-- Modelled from the spec: `details.attributes.get_overall(position)`. -/
def PlayerTeam.get_overall (p : PlayerTeam) : Positions → Int
  | .GK => p.rGK
  | .DF => p.rDF
  | .MF => p.rMF
  | .FW => p.rFW

/-- Modelled from the spec: the mutable per-match wrapper
`PlayerSimulation(player, current_position)` of the missing `player.py`,
with its `subbed` flag (false on creation).  Stamina and the injury flag
are omitted: no claim mentions them and they are never written by the
code under verification. -/
structure PSim where
  player : PlayerTeam
  current_position : Positions
  subbed : Bool
deriving DecidableEq, Repr, Inhabited

/-- A reference to a mutable `PlayerSimulation` object on the heap. -/
abbrev Ref := Nat

/-- Python errors that the modelled code can raise: `FormationError`
and the built-in `ValueError` raised by `list.index`/`list.remove`. -/
inductive PyError where
  | formationError
  | valueError
deriving DecidableEq, Repr

/-- `FormationMemento`: copies of gk/df/mf/fw/bench at a point in time.
`copy` of a list is shallow, so the element references are shared with
the live state; `copy` of the gk object is a fresh heap cell. -/
structure FormationMemento where
  gk : Option Ref
  df : List Ref
  mf : List Ref
  fw : List Ref
  bench : List Ref
deriving DecidableEq, Repr

/-- The `Formation` object together with the heap of `PlayerSimulation`
objects it can reach. -/
structure St where
  heap : List PSim
  formation_string : String
  gk : Option Ref
  df : List Ref
  mf : List Ref
  fw : List Ref
  bench : List Ref
  history : List FormationMemento
deriving DecidableEq, Repr

/-- Dereference: read the object a reference points to. -/
def St.deref (s : St) (r : Ref) : PSim := s.heap.getD r default

/-- Write the object a reference points to (no-op when out of range,
which never happens for references created by the model). -/
def St.setRef (s : St) (r : Ref) (v : PSim) : St :=
  { s with heap := s.heap.set r v }

/-- Allocate a fresh object, returning the new state and its reference. -/
def St.alloc (s : St) (v : PSim) : St × Ref :=
  ({ s with heap := s.heap ++ [v] }, s.heap.length)

/-- Python `a == b` on two `PlayerSimulation` objects: dataclass
structural equality of the current field values. -/
def St.pyEq (s : St) (a b : Ref) : Bool := s.deref a == s.deref b

/-- Python `x in l` for a list of `PlayerSimulation` objects. -/
def St.pyMem (s : St) (l : List Ref) (t : Ref) : Bool :=
  l.any fun r => s.pyEq r t

/-- Python `l.remove(x)`: drop the first element `==` to `x`,
`none` models the `ValueError` raised when there is none. -/
def St.pyRemove (s : St) (l : List Ref) (t : Ref) : Option (List Ref) :=
  match l with
  | [] => none
  | r :: rest =>
      if s.pyEq r t then some rest
      else (s.pyRemove rest t).map fun rs => r :: rs

/-- Python `l[l.index(x)] = y`: replace the first element `==` to `x`
by `y`; `none` models the `ValueError` raised by `index` when there is
none. -/
def St.pyReplaceFirst (s : St) (l : List Ref) (t nv : Ref) : Option (List Ref) :=
  match l with
  | [] => none
  | r :: rest =>
      if s.pyEq r t then some (nv :: rest)
      else (s.pyReplaceFirst rest t nv).map fun rs => r :: rs

/-- `FORMATION_STRINGS` from formation.py. -/
def FORMATION_STRINGS : List String :=
  ["3-4-3", "3-5-2", "3-6-1", "4-4-2", "4-3-3", "4-5-1", "5-4-1", "5-3-2"]

/-- `Formation.validate_formation`. -/
def validate_formation (s : St) : Bool :=
  s.formation_string ∈ FORMATION_STRINGS

/-- Python `str.split("-")` on the character list of a string. -/
def splitOnDash : List Char → List (List Char)
  | [] => [[]]
  | c :: rest =>
      let r := splitOnDash rest
      if c = '-' then [] :: r
      else
        match r with
        | [] => [[c]]
        | g :: gs => (c :: g) :: gs

/-- Python `int` on a run of decimal digits. -/
def digitsToNat (cs : List Char) : Nat :=
  cs.foldl (fun n c => n * 10 + (c.toNat - 48)) 0

/-- Parse a formation code string into (defenders, midfielders,
forwards); helper for `get_num_players`. -/
def get_num_players_str (fs : String) : Nat × Nat × Nat :=
  match (splitOnDash fs.data).map digitsToNat with
  | [d, m, f] => (d, m, f)
  | _ => (0, 0, 0)

/-- `Formation.get_num_players`: parse the formation code into
(defenders, midfielders, forwards). -/
def get_num_players (s : St) : Nat × Nat × Nat :=
  get_num_players_str s.formation_string

/-- The `players` property: `[gk] + df + mf + fw` when a keeper is set,
`[]` otherwise. -/
def St.players (s : St) : List Ref :=
  match s.gk with
  | none => []
  | some g => g :: (s.df ++ s.mf ++ s.fw)

/-- The `all_players` property: `players + bench`. -/
def St.all_players (s : St) : List Ref := s.players ++ s.bench

/-- `Formation._save_history`: push a memento holding `copy(self.gk)`
(a fresh heap cell when the keeper is set) and shallow copies of the
four lists. -/
def save_history (s : St) : St :=
  match s.gk with
  | none =>
      { s with history := s.history ++ [⟨none, s.df, s.mf, s.fw, s.bench⟩] }
  | some g =>
      let c := s.heap.length
      { s with
        heap := s.heap ++ [s.deref g],
        history := s.history ++ [⟨some c, s.df, s.mf, s.fw, s.bench⟩] }

/-- The memento that `_save_history` pushes, as a function of the state. -/
def capturedMemento (s : St) : FormationMemento :=
  ⟨s.gk.map fun _ => s.heap.length, s.df, s.mf, s.fw, s.bench⟩

/-- The two shapes a player argument to `add_player` can take:
a raw `PlayerTeam` roster entry, or an existing `PlayerSimulation`. -/
inductive PlayerInput where
  | team (p : PlayerTeam)
  | sim (r : Ref)
deriving DecidableEq, Repr

/-- Normalisation step of `add_player`: a raw entry is wrapped as
`PlayerSimulation(player, Positions.GK)` (a fresh object); an existing
simulation object is used as is. -/
def normalizeInput (s : St) : PlayerInput → St × Ref
  | .team p => s.alloc ⟨p, .GK, false⟩
  | .sim r => (s, r)

/-- `Formation.add_player(position, player)`. -/
def add_player (s : St) (position : Nat) (inp : PlayerInput) : St :=
  let sr := normalizeInput s inp
  let s := sr.1
  let r := sr.2
  match get_num_players s with
  | (dfn, mfn, fwn) =>
  if position = 0 then
    { s with gk := some r }
  else if 0 < position ∧ position ≤ dfn ∧ s.df.length < dfn then
    let s := s.setRef r { s.deref r with current_position := .DF }
    { s with df := s.df ++ [r] }
  else if dfn < position ∧ position ≤ dfn + mfn ∧ s.mf.length < mfn then
    let s := s.setRef r { s.deref r with current_position := .MF }
    { s with mf := s.mf ++ [r] }
  else if dfn + mfn < position ∧ position ≤ dfn + mfn + fwn ∧ s.fw.length < fwn then
    let s := s.setRef r { s.deref r with current_position := .FW }
    { s with fw := s.fw ++ [r] }
  else
    let s := s.setRef r { s.deref r with current_position := (s.deref r).player.best_position }
    { s with bench := s.bench ++ [r] }

/-- The `for pos, player in enumerate(players): self.add_player(pos, player)`
replay loop of `change_formation`. -/
def addAllFrom (s : St) (i : Nat) : List Ref → St
  | [] => s
  | r :: rest => addAllFrom (add_player s i (.sim r)) (i + 1) rest

/-- `Formation.change_formation(formation_string)`.  The new string is
assigned before validation, so on error the state carries the invalid
string; an error result also carries the partially mutated state. -/
def change_formation (s : St) (fs : String) : Except (PyError × St) St :=
  let s := { s with formation_string := fs }
  if validate_formation s then
    let ps := s.players
    let s := { s with gk := none, df := [], mf := [], fw := [] }
    .ok (addAllFrom s 0 ps)
  else
    .error (.formationError, s)

/-- Replace `player_out` by `player_in` in the bucket named by
`player_out`'s current position (the body of `substitute_player`
between the history push and the bench bookkeeping). -/
def placeInBucket (s : St) (cp : Positions) (pout pin : Ref) : Except (PyError × St) St :=
  match cp with
  | .GK => .ok { s with gk := some pin }
  | .DF =>
      match s.pyReplaceFirst s.df pout pin with
      | none => .error (.valueError, s)
      | some l => .ok { s with df := l }
  | .MF =>
      match s.pyReplaceFirst s.mf pout pin with
      | none => .error (.valueError, s)
      | some l => .ok { s with mf := l }
  | .FW =>
      match s.pyReplaceFirst s.fw pout pin with
      | none => .error (.valueError, s)
      | some l => .ok { s with fw := l }

/-- `Formation.substitute_player(player_out, player_in)`. -/
def substitute_player (s : St) (pout pin : Ref) : Except (PyError × St) St :=
  if ¬ (s.pyMem s.all_players pin ∧ s.pyMem s.all_players pout) then
    .error (.formationError, s)
  else
    let s := save_history s
    let cp := (s.deref pout).current_position
    match placeInBucket s cp pout pin with
    | .error e => .error e
    | .ok s =>
      let s := s.setRef pout { s.deref pout with subbed := true }
      match s.pyRemove s.bench pin with
      | none => .error (.valueError, s)
      | some b =>
        let s := { s with bench := b ++ [pout] }
        let s := s.setRef pin { s.deref pin with current_position := cp }
        .ok s

/-- `Formation.move_player(player, player_out)`: the two current
positions are exchanged on the objects first, then each player is
written into the slot of the other (located by value search). -/
def move_player (s : St) (player pout : Ref) : Except (PyError × St) St :=
  if ¬ s.pyMem s.all_players player then
    .error (.formationError, s)
  else
    let s := save_history s
    let pos := (s.deref player).current_position
    let new_pos := (s.deref pout).current_position
    let s := s.setRef player { s.deref player with current_position := new_pos }
    let s := s.setRef pout { s.deref pout with current_position := pos }
    match placeInBucket s new_pos pout player with
    | .error e => .error e
    | .ok s =>
      match placeInBucket s pos player pout with
      | .error e => .error e
      | .ok s => .ok s

/-- `Formation.restore(memento)`. -/
def restore (s : St) (m : FormationMemento) : St :=
  { s with gk := m.gk, df := m.df, mf := m.mf, fw := m.fw, bench := m.bench }

/-- `Formation.clear_history`. -/
def clear_history (s : St) : St := { s with history := [] }

/-- `Formation.__post_init__`: validate the code and push the initial
snapshot. -/
def Formation.init (fs : String) : Except PyError St :=
  let s : St := ⟨[], fs, none, [], [], [], [], []⟩
  if validate_formation s then .ok (save_history s) else .error .formationError

/-- The mutated state carried by an operation's outcome (a Python
exception leaves the partial mutations in place). -/
def stateOf (r : Except (PyError × St) St) : St :=
  match r with
  | .ok s => s
  | .error (_, s) => s

/-!
Match clock (`LiveGame` in simulation.py).  The source keeps `minutes`
as a `Decimal` under a 5-significant-digit context and adds
`Decimal(0.1)` per tick; at that precision every sum produced from 0.0
by `+= Decimal(0.1)` rounds to an exact multiple of one tenth for all
values reached in a match (≤ 120.0), so minutes are embedded as a
natural number of tenths: 45.0 ↦ 450, 90.0 ↦ 900, 105.0 ↦ 1050,
120.0 ↦ 1200.  `SimulationEngine.run` is a stub (`pass`) in the source,
so a tick changes nothing but the clock; the scores that
`is_game_a_draw` compares are carried in the state. -/

/-- The clock-relevant state of `LiveGame` (plus the two scores the
engine's `is_game_a_draw` reads). -/
structure ClockState where
  minutes : Nat
  is_half_time : Bool
  is_game_over : Bool
  possible_extra_time : Bool
  possible_penalties : Bool
  home_score : Nat
  away_score : Nat
deriving DecidableEq, Repr

/-- `SimulationEngine.is_game_a_draw`. -/
def is_game_a_draw (s : ClockState) : Bool := s.home_score == s.away_score

/-- `LiveGame.game_is_not_in_break`: returns the boolean result and the
state with any flag side effects applied. -/
def game_is_not_in_break (s : ClockState) : Bool × ClockState :=
  if s.minutes = 1200 then
    if s.possible_penalties && is_game_a_draw s then
      (false, { s with is_half_time := true })
    else
      (false, { s with is_game_over := true })
  else if s.minutes = 450 ∨ s.minutes = 1050 then
    (false, { s with is_half_time := true })
  else if s.minutes = 900 then
    if s.possible_extra_time && is_game_a_draw s then
      (false, { s with is_half_time := true })
    else
      (false, { s with is_game_over := true })
  else
    (true, s)

/-- `SimulationEngine.run(minutes)`: a stub (`pass`) in the source —
no state change. -/
def engine_run (s : ClockState) : ClockState := s

/-- One iteration of the `while` body of `LiveGame.run`: evaluate the
boundary check, and when play goes on resolve the tick and advance the
clock one tenth. -/
def runBody (s : ClockState) : ClockState :=
  let bs := game_is_not_in_break s
  if bs.1 then
    let s := engine_run bs.2
    { s with minutes := s.minutes + 1 }
  else
    bs.2

/-- `LiveGame.run`, fuelled: iterate the loop body while neither the
game-over nor the half-time flag is set, at most `n` times. -/
def runFuel : Nat → ClockState → ClockState
  | 0, s => s
  | n + 1, s =>
      if s.is_game_over || s.is_half_time then s
      else runFuel n (runBody s)

/-- `LiveGame.reset_after_half_time`. -/
def reset_after_half_time (s : ClockState) : ClockState :=
  { s with is_half_time := false, minutes := s.minutes + 1 }

/-- The clock state right after `LiveGame.__init__`: zero minutes, both
flags clear, scores zero. -/
def initClock (pet pp : Bool) : ClockState :=
  ⟨0, false, false, pet, pp, 0, 0⟩

/-- A roster entry fixture with all ratings zero, used in concrete
counterexamples and witnesses. -/
def mkP (pid : Nat) (bp : Positions) : PlayerTeam := ⟨pid, bp, 0, 0, 0, 0⟩

/-- The reference `add_player` ends up placing: the argument itself for
an existing simulation object, the freshly allocated wrapper for a raw
roster entry. -/
def inputRef (s : St) : PlayerInput → Ref
  | .team _ => s.heap.length
  | .sim r => r

/-- The underlying roster entry of an `add_player` argument. -/
def inputPlayer (s : St) : PlayerInput → PlayerTeam
  | .team p => p
  | .sim r => (s.deref r).player

/-- Sanity condition on an `add_player` argument: an existing
simulation object must actually live on the heap (always true of the
references the model itself creates). -/
def inputOk (s : St) : PlayerInput → Prop
  | .team _ => True
  | .sim r => r < s.heap.length

/-- Fixture: a 4-4-2 formation whose defender bucket is already full,
with a fifth heap object (a midfielder by trade) about to be added. -/
def fullDfSt : St :=
  ⟨[⟨mkP 1 .DF, .DF, false⟩, ⟨mkP 2 .DF, .DF, false⟩, ⟨mkP 3 .DF, .DF, false⟩,
    ⟨mkP 4 .DF, .DF, false⟩, ⟨mkP 9 .MF, .DF, false⟩],
   "4-4-2", none, [0, 1, 2, 3], [], [], [], []⟩

/-- Fixture: a small 4-4-2 formation with a keeper, one defender and
one benched defender, ready for a substitution. -/
def subSt : St :=
  ⟨[⟨mkP 1 .GK, .GK, false⟩, ⟨mkP 2 .DF, .DF, false⟩, ⟨mkP 3 .DF, .DF, false⟩],
   "4-4-2", some 0, [1], [], [], [2], []⟩

/-- Fixture: a formation with a keeper and a benched player whose
current position label is Goalkeeper. -/
def benchGkSt : St :=
  ⟨[⟨mkP 1 .GK, .GK, false⟩, ⟨mkP 2 .GK, .GK, false⟩],
   "4-4-2", some 0, [], [], [], [1], []⟩

/-- Fixture: a formation with a keeper and one defender, plus a heap
object (reference 2) that belongs to no collection of the formation. -/
def moveSt : St :=
  ⟨[⟨mkP 1 .GK, .GK, false⟩, ⟨mkP 2 .DF, .DF, false⟩, ⟨mkP 3 .FW, .GK, false⟩],
   "4-4-2", some 0, [1], [], [], [], []⟩

/-- Fixture: a keeper and two active defenders, the one about to be
moved listed second in the bucket. -/
def dfPairSt : St :=
  ⟨[⟨mkP 1 .GK, .GK, false⟩, ⟨mkP 2 .DF, .DF, false⟩, ⟨mkP 3 .DF, .DF, false⟩],
   "4-4-2", some 0, [1, 2], [], [], [], []⟩

/-- The well-formedness invariant of a Formation, from the spec's data
model: no player object appears in more than one of gk/df/mf/fw/bench,
every member lives on the heap, and distinct members are distinct
players (pairwise distinct ids). -/
def Wf (s : St) : Prop :=
  s.all_players.Nodup ∧
  (∀ r ∈ s.all_players, r < s.heap.length) ∧
  (s.all_players.map fun r => (s.deref r).player.pid).Nodup

/-- The collection holding the slots of a given position. -/
def occupants (s : St) (p : Positions) : List Ref :=
  match p with
  | .GK => s.gk.toList
  | .DF => s.df
  | .MF => s.mf
  | .FW => s.fw

/-- A command applying one of the four mutating Formation operations
(used to quantify over arbitrary operation sequences). -/
inductive Cmd where
  | add (i : Nat) (inp : PlayerInput)
  | change (fs : String)
  | sub (a b : Ref)
  | move (a b : Ref)
deriving Repr

/-- Apply one command, keeping the partially mutated state when the
operation raises. -/
def execCmd (s : St) : Cmd → St
  | .add i inp => add_player s i inp
  | .change fs => stateOf (change_formation s fs)
  | .sub a b => stateOf (substitute_player s a b)
  | .move a b => stateOf (move_player s a b)

/-- Apply a sequence of commands. -/
def execList (s : St) : List Cmd → St
  | [] => s
  | c :: cs => execList (execCmd s c) cs

/-- Whether an operation finished without raising. -/
def exOk (r : Except (PyError × St) St) : Bool :=
  match r with
  | .ok _ => true
  | .error _ => false

/-! Lineup assignment (`Formation.get_best_players`).  Python's
`list.sort` is a stable sort; it is embedded as a stable insertion
sort (equal keys keep their original relative order). -/

/-- Stable insertion for a descending sort: the inserted element came
earlier in the original list, so it goes before the first element whose
key is not larger. -/
def insertDescBy (key : α → Int) (x : α) : List α → List α
  | [] => [x]
  | y :: ys => if key x ≥ key y then x :: y :: ys else y :: insertDescBy key x ys

/-- Python `l.sort(key=..., reverse=True)`: stable descending sort. -/
def sortDescBy (key : α → Int) : List α → List α
  | [] => []
  | x :: xs => insertDescBy key x (sortDescBy key xs)

/-- Stable insertion for an ascending sort. -/
def insertAscBy (key : α → Nat) (x : α) : List α → List α
  | [] => [x]
  | y :: ys => if key x ≤ key y then x :: y :: ys else y :: insertAscBy key x ys

/-- Python `l.sort(key=...)`: stable ascending sort. -/
def sortAscBy (key : α → Nat) : List α → List α
  | [] => []
  | x :: xs => insertAscBy key x (sortAscBy key xs)

/-- `Formation.get_best_players_per_position`: the roster members whose
intrinsic best position matches, sorted by rating for that position in
descending order; raises `FormationError` when there are none. -/
def get_best_players_per_position (players : List PlayerTeam) (position : Positions) :
    Except PyError (List PlayerTeam) :=
  let players_in_position := players.filter fun p => p.best_position == position
  if players_in_position.isEmpty then .error .formationError
  else .ok (sortDescBy (fun p => p.get_overall position) players_in_position)

/-- `[i, i+1, ..., i+n-1]`; `idxFrom 0 11` is Python's `range(11)`. -/
def idxFrom (i n : Nat) : List Nat :=
  match n with
  | 0 => []
  | n + 1 => i :: idxFrom (i + 1) n

/-- The slot-position dispatch at the top of the `get_best_players`
loop body (source lines 115-124), including its bucket-occupancy
guards; the final `else` is the "Unable to get best players!" error. -/
def gbpStepPos (dfn mfn fwn : Nat) (s : St) (position : Nat) : Except PyError Positions :=
  if position = 0 then .ok .GK
  else if 0 < position ∧ position ≤ dfn ∧ s.df.length < dfn then .ok .DF
  else if dfn < position ∧ position ≤ dfn + mfn ∧ s.mf.length < mfn then .ok .MF
  else if position ≤ dfn + mfn + fwn ∧ s.fw.length < fwn then .ok .FW
  else .error .formationError

/-- The `for position in range(11)` loop of `get_best_players`: pick
the best remaining player for the slot's position, add them, and drop
them from the remaining roster. -/
def gbpGo (dfn mfn fwn : Nat) : List Nat → St → List PlayerTeam →
    Except (PyError × St) (St × List PlayerTeam)
  | [], s, rem => .ok (s, rem)
  | position :: rest, s, rem =>
      match gbpStepPos dfn mfn fwn s position with
      | .error e => .error (e, s)
      | .ok pos =>
          match get_best_players_per_position rem pos with
          | .error e => .error (e, s)
          | .ok sorted =>
              let player := sorted.headD default
              gbpGo dfn mfn fwn rest (add_player s position (.team player)) (rem.erase player)

/-- Allocate the bench wrappers in roster order, returning their
references. -/
def allocBench (s : St) : List PSim → St × List Ref
  | [] => (s, [])
  | v :: vs =>
      let sr := s.alloc v
      let rest := allocBench sr.1 vs
      (rest.1, sr.2 :: rest.2)

/-- The bench sort key `x.current_position.value` at the value level. -/
def psimValue (v : PSim) : Nat := v.current_position.value

/-- `self.bench.sort(key=lambda x: x.current_position.value)` on a list
of references. -/
def sortAscRefs (s : St) (l : List Ref) : List Ref :=
  sortAscBy (fun r => psimValue (s.deref r)) l

/-- `Formation.get_best_players(players)`. -/
def get_best_players (s : St) (players : List PlayerTeam) : Except (PyError × St) St :=
  match get_num_players s with
  | (dfn, mfn, fwn) =>
    match gbpGo dfn mfn fwn (idxFrom 0 11) s players with
    | .error e => .error e
    | .ok sr =>
        let sb := allocBench sr.1 (sr.2.map fun p => (⟨p, p.best_position, false⟩ : PSim))
        .ok { sb.1 with bench := sortAscRefs sb.1 sb.2 }

/-! Specification-side definitions for claim C3, following the claim's
words; the theorem compares the code model above against these. -/

/-- Modelled from the claim: the leftmost element with the highest key
(descending order with ties kept in original order picks exactly
this element first). -/
def leftmostMaxBy (key : α → Int) : List α → Option α
  | [] => none
  | x :: xs =>
      match leftmostMaxBy key xs with
      | none => some x
      | some m => if key m > key x then some m else some x

/-- Modelled from the claim: among the remaining unassigned roster
members whose intrinsic best position equals the slot's required
position, the one with the highest rating for that position (ties by
original roster order). -/
def specPick (rem : List PlayerTeam) (pos : Positions) : Option PlayerTeam :=
  leftmostMaxBy (fun p => p.get_overall pos) (rem.filter fun p => p.best_position == pos)

/-- Modelled from the claim: fill the required slots in order, each
with the pick among the remaining members, failing when no eligible
candidate remains; returns the assignments and the remaining roster. -/
def specSelect : List Positions → List PlayerTeam →
    Option (List (Positions × PlayerTeam) × List PlayerTeam)
  | [], rem => some ([], rem)
  | pos :: ps, rem =>
      match specPick rem pos with
      | none => none
      | some p =>
          match specSelect ps (rem.erase p) with
          | none => none
          | some ar => some ((pos, p) :: ar.1, ar.2)

/-- The required position of slot index `i` (keeper, then `dfn`
defenders, then `mfn` midfielders, then forwards). -/
def slotPos (dfn mfn : Nat) (i : Nat) : Positions :=
  if i = 0 then .GK
  else if i ≤ dfn then .DF
  else if i ≤ dfn + mfn then .MF
  else .FW

/-- The 11 required slot positions of a formation shape, in order. -/
def slotList (dfn mfn fwn : Nat) : List Positions :=
  [Positions.GK] ++ List.replicate dfn .DF ++ List.replicate mfn .MF ++
    List.replicate fwn .FW

/-- The wrapper `add_player` creates for an assigned (position, player)
pair on the lineup-assignment path. -/
def wrapAssign (a : Positions × PlayerTeam) : PSim := ⟨a.2, a.1, false⟩

/-- The state the claimed selection produces: allocate each assignment
in slot order into its bucket. -/
def applyAssign (s : St) : List (Positions × PlayerTeam) → St
  | [] => s
  | a :: rest =>
      let sr := s.alloc (wrapAssign a)
      let s2 : St :=
        match a.1 with
        | .GK => { sr.1 with gk := some sr.2 }
        | .DF => { sr.1 with df := sr.1.df ++ [sr.2] }
        | .MF => { sr.1 with mf := sr.1.mf ++ [sr.2] }
        | .FW => { sr.1 with fw := sr.1.fw ++ [sr.2] }
      applyAssign s2 rest

/-- The players assigned to a given position, in slot order. -/
def picksOf (a : List (Positions × PlayerTeam)) (pos : Positions) : List PlayerTeam :=
  (a.filter fun q => q.1 == pos).map Prod.snd

/-- Fixture: a freshly constructed 4-4-2 formation (empty buckets). -/
def lineupSt : St := ⟨[], "4-4-2", none, [], [], [], [], []⟩

/-- Fixture: a 13-player roster with two keepers, five defenders, four
midfielders and two forwards, with known ratings. -/
def rosterW : List PlayerTeam :=
  [⟨1, .GK, 80, 0, 0, 0⟩, ⟨2, .GK, 90, 0, 0, 0⟩,
   ⟨3, .DF, 0, 70, 0, 0⟩, ⟨4, .DF, 0, 90, 0, 0⟩, ⟨5, .DF, 0, 80, 0, 0⟩,
   ⟨6, .DF, 0, 80, 0, 0⟩, ⟨7, .DF, 0, 60, 0, 0⟩,
   ⟨8, .MF, 0, 0, 85, 0⟩, ⟨9, .MF, 0, 0, 85, 0⟩, ⟨10, .MF, 0, 0, 70, 0⟩,
   ⟨11, .MF, 0, 0, 95, 0⟩,
   ⟨12, .FW, 0, 0, 0, 88⟩, ⟨13, .FW, 0, 0, 0, 99⟩]

/-! A second, reference-level embedding of the history-carrying
operations of formation.py, for claim C2.  Above, Python lists were
modelled as Lean values; that cannot express the aliasing `restore`
creates, since formation.py lines 233-238 assign the memento's list
objects themselves to the live fields.  Here every list is a mutable
object: the five live collections and the four copies inside a memento
are references into a heap of list objects, and `append`, `l[i] = x`
and `remove` mutate the referenced object in place, visible through
every reference to it.  The operations are translated from the same
formation.py functions as the value-level definitions above, re-read
at this level. -/

namespace Alias

/-- A reference to a mutable list object. -/
abbrev LRef := Nat

/-- `FormationMemento` at the reference level: `copy(self.df)` and the
other three list copies are fresh list objects of their own, and
`copy(self.gk)` is a fresh player object. -/
structure FormationMemento where
  gk : Option Ref
  df : LRef
  mf : LRef
  fw : LRef
  bench : LRef
deriving DecidableEq, Repr

/-- The `Formation` object at the reference level: a heap of
`PlayerSimulation` objects, a heap of list objects, and the five live
collection fields holding references into the latter. -/
structure St where
  heap : List PSim
  lheap : List (List Ref)
  formation_string : String
  gk : Option Ref
  df : LRef
  mf : LRef
  fw : LRef
  bench : LRef
  history : List FormationMemento
deriving DecidableEq, Repr

/-- Dereference a player object. -/
def St.deref (s : St) (r : Ref) : PSim := s.heap.getD r default

/-- Write a player object. -/
def St.setRef (s : St) (r : Ref) (v : PSim) : St :=
  { s with heap := s.heap.set r v }

/-- Read the contents of a list object. -/
def St.getL (s : St) (i : LRef) : List Ref := s.lheap.getD i []

/-- Mutate a list object in place: every reference to it sees the new
contents. -/
def St.setL (s : St) (i : LRef) (l : List Ref) : St :=
  { s with lheap := s.lheap.set i l }

/-- Allocate a fresh player object. -/
def alloc (s : St) (v : PSim) : St × Ref :=
  ({ s with heap := s.heap ++ [v] }, s.heap.length)

/-- Python `a == b` on two `PlayerSimulation` objects. -/
def St.pyEq (s : St) (a b : Ref) : Bool := s.deref a == s.deref b

/-- Python `x in l` for a list of `PlayerSimulation` objects. -/
def St.pyMem (s : St) (l : List Ref) (t : Ref) : Bool :=
  l.any fun r => s.pyEq r t

/-- Python `l.remove(x)`; `none` models the `ValueError` on a miss. -/
def St.pyRemove (s : St) (l : List Ref) (t : Ref) : Option (List Ref) :=
  match l with
  | [] => none
  | r :: rest =>
      if s.pyEq r t then some rest
      else (s.pyRemove rest t).map fun rs => r :: rs

/-- Python `l[l.index(x)] = y`; `none` models the `ValueError` raised
by `index` on a miss. -/
def St.pyReplaceFirst (s : St) (l : List Ref) (t nv : Ref) : Option (List Ref) :=
  match l with
  | [] => none
  | r :: rest =>
      if s.pyEq r t then some (nv :: rest)
      else (s.pyReplaceFirst rest t nv).map fun rs => r :: rs

/-- The `players` property. -/
def St.players (s : St) : List Ref :=
  match s.gk with
  | none => []
  | some g => g :: (s.getL s.df ++ s.getL s.mf ++ s.getL s.fw)

/-- The `all_players` property. -/
def St.all_players (s : St) : List Ref := s.players ++ s.getL s.bench

/-- `Formation.get_num_players`. -/
def get_num_players (s : St) : Nat × Nat × Nat :=
  get_num_players_str s.formation_string

/-- `Formation.validate_formation`. -/
def validate_formation (s : St) : Bool :=
  s.formation_string ∈ FORMATION_STRINGS

/-- `Formation._save_history`: pushes a memento whose four list fields
reference freshly allocated copies of the live lists, and whose keeper
field references a fresh copy of the keeper object. -/
def save_history (s : St) : St :=
  let gkc : Option Ref := s.gk.map fun _ => s.heap.length
  let hp : List PSim :=
    match s.gk with
    | none => s.heap
    | some g => s.heap ++ [s.deref g]
  let n := s.lheap.length
  { s with
    heap := hp,
    lheap := s.lheap ++ [s.getL s.df, s.getL s.mf, s.getL s.fw, s.getL s.bench],
    history := s.history ++ [⟨gkc, n, n + 1, n + 2, n + 3⟩] }

/-- The memento `_save_history` pushes, as a function of the state. -/
def capturedMemento (s : St) : FormationMemento :=
  ⟨s.gk.map fun _ => s.heap.length, s.lheap.length, s.lheap.length + 1,
   s.lheap.length + 2, s.lheap.length + 3⟩

/-- `Formation.restore(memento)`: the memento's list objects themselves
become the live collections - no copy is taken (formation.py 233-238). -/
def restore (s : St) (m : FormationMemento) : St :=
  { s with gk := m.gk, df := m.df, mf := m.mf, fw := m.fw, bench := m.bench }

/-- The wrapping step of `add_player`. -/
def normalizeInput (s : St) : PlayerInput → St × Ref
  | .team p => alloc s ⟨p, .GK, false⟩
  | .sim r => (s, r)

/-- `Formation.add_player(position, player)`: `self.df.append(...)`
mutates the list object the `df` field references (likewise `mf`, `fw`
and `bench`). -/
def add_player (s : St) (position : Nat) (inp : PlayerInput) : St :=
  let sr := normalizeInput s inp
  let s := sr.1
  let r := sr.2
  match get_num_players s with
  | (dfn, mfn, fwn) =>
  if position = 0 then
    { s with gk := some r }
  else if 0 < position ∧ position ≤ dfn ∧ (s.getL s.df).length < dfn then
    let s := s.setRef r { s.deref r with current_position := .DF }
    s.setL s.df (s.getL s.df ++ [r])
  else if dfn < position ∧ position ≤ dfn + mfn ∧ (s.getL s.mf).length < mfn then
    let s := s.setRef r { s.deref r with current_position := .MF }
    s.setL s.mf (s.getL s.mf ++ [r])
  else if dfn + mfn < position ∧ position ≤ dfn + mfn + fwn ∧ (s.getL s.fw).length < fwn then
    let s := s.setRef r { s.deref r with current_position := .FW }
    s.setL s.fw (s.getL s.fw ++ [r])
  else
    let s := s.setRef r { s.deref r with current_position := (s.deref r).player.best_position }
    s.setL s.bench (s.getL s.bench ++ [r])

/-- The replay loop of `change_formation`. -/
def addAllFrom (s : St) (i : Nat) : List Ref → St
  | [] => s
  | r :: rest => addAllFrom (add_player s i (.sim r)) (i + 1) rest

/-- `Formation.change_formation(formation_string)`: the new string is
assigned before validation; on success `self.df = []` and the two
assignments after it bind the live fields to fresh empty list objects
(the previously referenced list objects are not mutated). -/
def change_formation (s : St) (fs : String) : Except (PyError × St) St :=
  let s := { s with formation_string := fs }
  if validate_formation s then
    let ps := s.players
    let n := s.lheap.length
    let s := { s with
      lheap := s.lheap ++ [[], [], []],
      gk := none, df := n, mf := n + 1, fw := n + 2 }
    .ok (addAllFrom s 0 ps)
  else
    .error (.formationError, s)

/-- The bucket write of `substitute_player`/`move_player`: `l[i] = x`
mutates the referenced list object. -/
def placeInBucket (s : St) (cp : Positions) (pout pin : Ref) : Except (PyError × St) St :=
  match cp with
  | .GK => .ok { s with gk := some pin }
  | .DF =>
      match s.pyReplaceFirst (s.getL s.df) pout pin with
      | none => .error (.valueError, s)
      | some l => .ok (s.setL s.df l)
  | .MF =>
      match s.pyReplaceFirst (s.getL s.mf) pout pin with
      | none => .error (.valueError, s)
      | some l => .ok (s.setL s.mf l)
  | .FW =>
      match s.pyReplaceFirst (s.getL s.fw) pout pin with
      | none => .error (.valueError, s)
      | some l => .ok (s.setL s.fw l)

/-- `Formation.substitute_player(player_out, player_in)`. -/
def substitute_player (s : St) (pout pin : Ref) : Except (PyError × St) St :=
  if ¬ (s.pyMem s.all_players pin ∧ s.pyMem s.all_players pout) then
    .error (.formationError, s)
  else
    let s := save_history s
    let cp := (s.deref pout).current_position
    match placeInBucket s cp pout pin with
    | .error e => .error e
    | .ok s =>
      let s := s.setRef pout { s.deref pout with subbed := true }
      match s.pyRemove (s.getL s.bench) pin with
      | none => .error (.valueError, s)
      | some b =>
        let s := s.setL s.bench (b ++ [pout])
        let s := s.setRef pin { s.deref pin with current_position := cp }
        .ok s

/-- `Formation.move_player(player, player_out)`. -/
def move_player (s : St) (player pout : Ref) : Except (PyError × St) St :=
  if ¬ s.pyMem s.all_players player then
    .error (.formationError, s)
  else
    let s := save_history s
    let pos := (s.deref player).current_position
    let new_pos := (s.deref pout).current_position
    let s := s.setRef player { s.deref player with current_position := new_pos }
    let s := s.setRef pout { s.deref pout with current_position := pos }
    match placeInBucket s new_pos pout player with
    | .error e => .error e
    | .ok s =>
      match placeInBucket s pos player pout with
      | .error e => .error e
      | .ok s => .ok s

/-- The mutated state carried by an operation's outcome. -/
def stateOf (r : Except (PyError × St) St) : St :=
  match r with
  | .ok s => s
  | .error (_, s) => s

/-- Fixture: keeper (reference 0), one active defender (1) and one
benched defender (2); the four collections are list objects 0-3. -/
def pushSt : St :=
  ⟨[⟨mkP 1 .GK, .GK, false⟩, ⟨mkP 2 .DF, .DF, false⟩, ⟨mkP 3 .DF, .DF, false⟩],
   [[1], [], [], [2]],
   "4-4-2", some 0, 0, 1, 2, 3, []⟩

end Alias

/-! Basic lemmas about the heap. -/

theorem deref_setRef_self (s : St) (r : Ref) (v : PSim) (h : r < s.heap.length) :
    (s.setRef r v).deref r = v := by
  simp [St.setRef, St.deref, List.getD_eq_getElem?_getD, List.getElem?_set_self h]

theorem deref_setRef_other (s : St) (r r' : Ref) (v : PSim) (h : r' ≠ r) :
    (s.setRef r v).deref r' = s.deref r' := by
  simp [St.setRef, St.deref, List.getD_eq_getElem?_getD, List.getElem?_set_ne (Ne.symm h)]

theorem deref_heap_append (s : St) (l : List PSim) (r : Ref) (h : r < s.heap.length) :
    ({ s with heap := s.heap ++ l } : St).deref r = s.deref r := by
  simp [St.deref, List.getD_eq_getElem?_getD, List.getElem?_append_left h]

/-! Frame lemmas for the history-tracking operations. -/

theorem save_history_history (s : St) :
    (save_history s).history = s.history ++ [capturedMemento s] := by
  cases h : s.gk <;> simp [save_history, capturedMemento, h]

theorem save_history_gk (s : St) : (save_history s).gk = s.gk := by
  cases h : s.gk <;> simp [save_history, h]

theorem save_history_df (s : St) : (save_history s).df = s.df := by
  cases h : s.gk <;> simp [save_history, h]

theorem save_history_mf (s : St) : (save_history s).mf = s.mf := by
  cases h : s.gk <;> simp [save_history, h]

theorem save_history_fw (s : St) : (save_history s).fw = s.fw := by
  cases h : s.gk <;> simp [save_history, h]

theorem save_history_bench (s : St) : (save_history s).bench = s.bench := by
  cases h : s.gk <;> simp [save_history, h]

theorem save_history_fs (s : St) :
    (save_history s).formation_string = s.formation_string := by
  cases h : s.gk <;> simp [save_history, h]

theorem save_history_deref (s : St) (r : Ref) (h : r < s.heap.length) :
    (save_history s).deref r = s.deref r := by
  cases hg : s.gk
  · simp [save_history, hg, St.deref]
  · simp only [save_history, hg]
    exact deref_heap_append s _ r h

theorem save_history_heap_le (s : St) :
    s.heap.length ≤ (save_history s).heap.length := by
  cases hg : s.gk <;> simp [save_history, hg]

theorem placeInBucket_error_shape (s : St) (cp : Positions) (a b : Ref) (e : PyError)
    (t : St) (h : placeInBucket s cp a b = .error (e, t)) : e = .valueError ∧ t = s := by
  cases cp <;> simp only [placeInBucket] at h
  · cases h
  all_goals
    cases hrf : s.pyReplaceFirst _ a b <;> rw [hrf] at h <;> simp_all

theorem placeInBucket_ok_frame (s : St) (cp : Positions) (a b : Ref) (t : St)
    (h : placeInBucket s cp a b = .ok t) :
    t.heap = s.heap ∧ t.bench = s.bench ∧ t.history = s.history ∧
    t.formation_string = s.formation_string := by
  cases cp <;> simp only [placeInBucket] at h
  · cases h; exact ⟨rfl, rfl, rfl, rfl⟩
  all_goals
    cases hrf : s.pyReplaceFirst _ a b <;> rw [hrf] at h <;> simp_all
    all_goals subst h; exact ⟨rfl, rfl, rfl, rfl⟩

theorem add_player_history (s : St) (i : Nat) (inp : PlayerInput) :
    (add_player s i inp).history = s.history := by
  rcases hgn : get_num_players_str s.formation_string with ⟨dfn, mfn, fwn⟩
  cases inp <;>
    simp only [add_player, normalizeInput, get_num_players, St.alloc, hgn] <;>
    split_ifs <;> simp [St.setRef]

theorem addAllFrom_history (i : Nat) (l : List Ref) (s : St) :
    (addAllFrom s i l).history = s.history := by
  induction l generalizing s i with
  | nil => rfl
  | cons r rest ih =>
      rw [addAllFrom, ih, add_player_history]

theorem substitute_check_fail (s : St) (pout pin : Ref)
    (h : ¬ (s.pyMem s.all_players pin = true ∧ s.pyMem s.all_players pout = true)) :
    substitute_player s pout pin = .error (.formationError, s) := by
  simp [substitute_player, h]

theorem substitute_hist (s : St) (pout pin : Ref)
    (h : s.pyMem s.all_players pin = true ∧ s.pyMem s.all_players pout = true) :
    (stateOf (substitute_player s pout pin)).history = s.history ++ [capturedMemento s] := by
  rw [← save_history_history s]
  simp only [substitute_player, if_neg (not_not_intro h)]
  split
  · rename_i et heq
    obtain ⟨e, t⟩ := et
    obtain ⟨-, rfl⟩ := placeInBucket_error_shape _ _ _ _ _ _ heq
    rfl
  · rename_i s2 heq
    have hfr := placeInBucket_ok_frame _ _ _ _ _ heq
    split
    · simp [stateOf, St.setRef, hfr.2.2.1]
    · simp [stateOf, St.setRef, hfr.2.2.1]

theorem move_check_fail (s : St) (a b : Ref)
    (h : ¬ s.pyMem s.all_players a = true) :
    move_player s a b = .error (.formationError, s) := by
  simp [move_player, h]

theorem move_hist (s : St) (a b : Ref) (h : s.pyMem s.all_players a = true) :
    (stateOf (move_player s a b)).history = s.history ++ [capturedMemento s] := by
  rw [← save_history_history s]
  simp only [move_player, if_neg (not_not_intro h)]
  split
  · rename_i et heq
    obtain ⟨e, t⟩ := et
    obtain ⟨-, rfl⟩ := placeInBucket_error_shape _ _ _ _ _ _ heq
    simp [stateOf, St.setRef]
  · rename_i s2 heq
    have hfr := placeInBucket_ok_frame _ _ _ _ _ heq
    split
    · rename_i et2 heq2
      obtain ⟨e, t⟩ := et2
      obtain ⟨-, rfl⟩ := placeInBucket_error_shape _ _ _ _ _ _ heq2
      simp [stateOf, St.setRef] at hfr ⊢
      exact hfr.2.2.1
    · rename_i s3 heq2
      have hfr2 := placeInBucket_ok_frame _ _ _ _ _ heq2
      simp [stateOf, St.setRef] at hfr hfr2 ⊢
      rw [hfr2.2.2.1, hfr.2.2.1]

theorem pyReplaceFirst_mem (σ : St) (l : List Ref) (t nv : Ref) (bl : List Ref)
    (h : σ.pyReplaceFirst l t nv = some bl) : nv ∈ bl := by
  induction l generalizing bl with
  | nil => cases h
  | cons r rest ih =>
      rw [St.pyReplaceFirst] at h
      split at h
      · cases h
        exact List.mem_cons_self _ _
      · cases hrec : σ.pyReplaceFirst rest t nv with
        | none => rw [hrec] at h; cases h
        | some rs =>
            rw [hrec] at h
            cases h
            exact List.mem_cons_of_mem _ (ih rs hrec)

theorem setRef_heap_length (σ : St) (r : Ref) (v : PSim) :
    (σ.setRef r v).heap.length = σ.heap.length := by
  simp [St.setRef]

theorem deref_congr_heap (t u : St) (r : Ref) (h : t.heap = u.heap) :
    t.deref r = u.deref r := by
  simp [St.deref, h]

theorem placeInBucket_char (s : St) (cp : Positions) (pout pin : Ref) (t : St)
    (h : placeInBucket s cp pout pin = .ok t) :
    pin ∈ occupants t cp ∧
    (∀ q, q ≠ cp → occupants t q = occupants s q) ∧
    t.heap = s.heap ∧ t.bench = s.bench ∧ t.history = s.history := by
  cases cp with
  | GK =>
      simp only [placeInBucket] at h
      cases h
      refine ⟨by simp [occupants], ?_, rfl, rfl, rfl⟩
      intro q hq
      cases q <;> simp_all [occupants]
  | DF =>
      simp only [placeInBucket] at h
      cases hrf : s.pyReplaceFirst s.df pout pin <;> rw [hrf] at h
      · cases h
      · cases h
        refine ⟨pyReplaceFirst_mem s s.df pout pin _ hrf, ?_, rfl, rfl, rfl⟩
        intro q hq
        cases q <;> simp_all [occupants]
  | MF =>
      simp only [placeInBucket] at h
      cases hrf : s.pyReplaceFirst s.mf pout pin <;> rw [hrf] at h
      · cases h
      · cases h
        refine ⟨pyReplaceFirst_mem s s.mf pout pin _ hrf, ?_, rfl, rfl, rfl⟩
        intro q hq
        cases q <;> simp_all [occupants]
  | FW =>
      simp only [placeInBucket] at h
      cases hrf : s.pyReplaceFirst s.fw pout pin <;> rw [hrf] at h
      · cases h
      · cases h
        refine ⟨pyReplaceFirst_mem s s.fw pout pin _ hrf, ?_, rfl, rfl, rfl⟩
        intro q hq
        cases q <;> simp_all [occupants]

theorem pyEq_self (σ : St) (r : Ref) : σ.pyEq r r = true := by
  simp [St.pyEq]

theorem pyRemove_props (σ : St) (l : List Ref) (p : Ref) (bl : List Ref)
    (h : σ.pyRemove l p = some bl)
    (hinj : ∀ r ∈ l, σ.pyEq r p = true → r = p)
    (hnd : l.Nodup) :
    p ∈ l ∧ ∀ r ∈ bl, r ∈ l ∧ r ≠ p := by
  induction l generalizing bl with
  | nil => cases h
  | cons x rest ih =>
      rw [St.pyRemove] at h
      split at h
      · rename_i hx
        have hxp : x = p := hinj x (List.mem_cons_self _ _) hx
        cases h
        subst hxp
        refine ⟨List.mem_cons_self _ _, ?_⟩
        intro r hr
        refine ⟨List.mem_cons_of_mem _ hr, ?_⟩
        intro hrp
        subst hrp
        exact (List.nodup_cons.mp hnd).1 hr
      · rename_i hx
        cases hrec : σ.pyRemove rest p with
        | none => rw [hrec] at h; cases h
        | some rs =>
            rw [hrec] at h
            cases h
            have ihh := ih rs hrec (fun r hr he => hinj r (List.mem_cons_of_mem _ hr) he)
              (List.nodup_cons.mp hnd).2
            refine ⟨List.mem_cons_of_mem _ ihh.1, ?_⟩
            intro r hr
            rcases List.mem_cons.mp hr with rfl | hr2
            · refine ⟨List.mem_cons_self _ _, ?_⟩
              intro hrp
              subst hrp
              exact hx (pyEq_self σ r)
            · exact ⟨List.mem_cons_of_mem _ (ihh.2 r hr2).1, (ihh.2 r hr2).2⟩

/-! Lemmas for the lineup-assignment claim. -/

theorem head_sortDescBy (key : α → Int) (l : List α) :
    (sortDescBy key l).head? = leftmostMaxBy key l := by
  induction l with
  | nil => rfl
  | cons x xs ih =>
      cases hs : sortDescBy key xs with
      | nil =>
          have hlm : leftmostMaxBy key xs = none := by rw [← ih, hs]; rfl
          rw [sortDescBy, hs, leftmostMaxBy, hlm]
          rfl
      | cons y ys =>
          have hlm : leftmostMaxBy key xs = some y := by rw [← ih, hs]; rfl
          rw [sortDescBy, hs, leftmostMaxBy, hlm, insertDescBy]
          dsimp only
          by_cases hxy : key x ≥ key y
          · rw [if_pos hxy, if_neg (show ¬ key y > key x by omega)]
            rfl
          · rw [if_neg hxy, if_pos (show key y > key x by omega)]
            rfl

theorem gbpp_spec (rem : List PlayerTeam) (pos : Positions) :
    match specPick rem pos with
    | none => get_best_players_per_position rem pos = .error .formationError
    | some p => ∃ l, get_best_players_per_position rem pos = .ok l ∧
        l ≠ [] ∧ l.headD default = p := by
  unfold specPick get_best_players_per_position
  cases hf : rem.filter (fun p => p.best_position == pos) with
  | nil => simp [leftmostMaxBy]
  | cons a as =>
      have hsome : ∃ p, leftmostMaxBy (fun p => p.get_overall pos) (a :: as) = some p := by
        rw [leftmostMaxBy]
        cases leftmostMaxBy (fun p => p.get_overall pos) as
        · exact ⟨a, rfl⟩
        · rename_i m
          dsimp only
          split
          · exact ⟨m, rfl⟩
          · exact ⟨a, rfl⟩
      obtain ⟨p, hp⟩ := hsome
      rw [hp]
      have hh : (sortDescBy (fun p => p.get_overall pos) (a :: as)).head? = some p := by
        rw [head_sortDescBy, hp]
      dsimp only
      refine ⟨sortDescBy (fun p => p.get_overall pos) (a :: as), by simp, ?_, ?_⟩
      · intro hnil
        rw [hnil] at hh
        cases hh
      · cases hsort : sortDescBy (fun p => p.get_overall pos) (a :: as) with
        | nil => rw [hsort] at hh; cases hh
        | cons b bs =>
            rw [hsort] at hh
            cases hh
            rfl

theorem set_append_length (l : List α) (a v : α) :
    (l ++ [a]).set l.length v = l ++ [v] := by
  induction l with
  | nil => rfl
  | cons x xs ih => simp [List.set, ih]

theorem deref_alloc_self (s : St) (v : PSim) :
    ({ s with heap := s.heap ++ [v] } : St).deref s.heap.length = v := by
  simp [St.deref, List.getD_eq_getElem?_getD, List.getElem?_concat_length]

theorem add_player_team_gk (s : St) (p : PlayerTeam) :
    add_player s 0 (.team p) =
      { s with heap := s.heap ++ [⟨p, .GK, false⟩], gk := some s.heap.length } := by
  simp [add_player, normalizeInput, St.alloc]

theorem add_player_team_df (s : St) (p : PlayerTeam) (i dfn mfn fwn : Nat)
    (hfs : get_num_players_str s.formation_string = (dfn, mfn, fwn))
    (h0 : 0 < i) (h1 : i ≤ dfn) (h2 : s.df.length < dfn) :
    add_player s i (.team p) =
      { s with heap := s.heap ++ [⟨p, .DF, false⟩], df := s.df ++ [s.heap.length] } := by
  simp only [add_player, normalizeInput, St.alloc, get_num_players, hfs]
  rw [if_neg (show ¬ i = 0 by omega), if_pos ⟨h0, h1, h2⟩]
  simp [St.setRef, deref_alloc_self, set_append_length]

theorem add_player_team_mf (s : St) (p : PlayerTeam) (i dfn mfn fwn : Nat)
    (hfs : get_num_players_str s.formation_string = (dfn, mfn, fwn))
    (hgt : dfn < i) (h1 : i ≤ dfn + mfn) (h2 : s.mf.length < mfn) :
    add_player s i (.team p) =
      { s with heap := s.heap ++ [⟨p, .MF, false⟩], mf := s.mf ++ [s.heap.length] } := by
  simp only [add_player, normalizeInput, St.alloc, get_num_players, hfs]
  rw [if_neg (show ¬ i = 0 by omega),
    if_neg (show ¬ (0 < i ∧ i ≤ dfn ∧ s.df.length < dfn) from fun hc => by omega),
    if_pos ⟨hgt, h1, h2⟩]
  simp [St.setRef, deref_alloc_self, set_append_length]

theorem add_player_team_fw (s : St) (p : PlayerTeam) (i dfn mfn fwn : Nat)
    (hfs : get_num_players_str s.formation_string = (dfn, mfn, fwn))
    (hgt : dfn + mfn < i) (h1 : i ≤ dfn + mfn + fwn) (h2 : s.fw.length < fwn) :
    add_player s i (.team p) =
      { s with heap := s.heap ++ [⟨p, .FW, false⟩], fw := s.fw ++ [s.heap.length] } := by
  simp only [add_player, normalizeInput, St.alloc, get_num_players, hfs]
  rw [if_neg (show ¬ i = 0 by omega),
    if_neg (show ¬ (0 < i ∧ i ≤ dfn ∧ s.df.length < dfn) from fun hc => by omega),
    if_neg (show ¬ (dfn < i ∧ i ≤ dfn + mfn ∧ s.mf.length < mfn) from fun hc => by omega),
    if_pos ⟨hgt, h1, h2⟩]
  simp [St.setRef, deref_alloc_self, set_append_length]

theorem gbpStepPos_eq (dfn mfn fwn i : Nat) (s : St)
    (hsum : dfn + mfn + fwn = 10) (hi : i ≤ 10)
    (hld : s.df.length = min (i - 1) dfn)
    (hlm : s.mf.length = min (i - 1 - dfn) mfn)
    (hlf : s.fw.length = min (i - 1 - dfn - mfn) fwn) :
    gbpStepPos dfn mfn fwn s i = .ok (slotPos dfn mfn i) := by
  unfold gbpStepPos slotPos
  by_cases h0 : i = 0
  · simp [h0]
  · by_cases hdf : i ≤ dfn
    · rw [if_neg h0, if_pos ⟨by omega, hdf, by rw [hld]; omega⟩, if_neg h0, if_pos hdf]
    · by_cases hmf : i ≤ dfn + mfn
      · rw [if_neg h0, if_neg (show ¬ _ from fun hc => hdf hc.2.1),
          if_pos ⟨by omega, hmf, by rw [hlm]; omega⟩, if_neg h0, if_neg hdf, if_pos hmf]
      · rw [if_neg h0, if_neg (show ¬ _ from fun hc => hdf hc.2.1),
          if_neg (show ¬ _ from fun hc => hmf hc.2.1),
          if_pos ⟨by omega, by rw [hlf]; omega⟩, if_neg h0, if_neg hdf, if_neg hmf]

theorem gbpGo_spec (dfn mfn fwn : Nat) (hsum : dfn + mfn + fwn = 10) :
    ∀ (n i : Nat) (s : St) (rem : List PlayerTeam),
      i + n = 11 →
      get_num_players_str s.formation_string = (dfn, mfn, fwn) →
      s.df.length = min (i - 1) dfn →
      s.mf.length = min (i - 1 - dfn) mfn →
      s.fw.length = min (i - 1 - dfn - mfn) fwn →
      match specSelect ((idxFrom i n).map (slotPos dfn mfn)) rem with
      | none => ∃ t, gbpGo dfn mfn fwn (idxFrom i n) s rem = .error (.formationError, t)
      | some ar => gbpGo dfn mfn fwn (idxFrom i n) s rem = .ok (applyAssign s ar.1, ar.2) := by
  intro n
  induction n with
  | zero =>
      intro i s rem hin hfs hld hlm hlf
      exact rfl
  | succ n ih =>
      intro i s rem hin hfs hld hlm hlf
      have hi : i ≤ 10 := by omega
      have hstep := gbpStepPos_eq dfn mfn fwn i s hsum hi hld hlm hlf
      cases hpick : specPick rem (slotPos dfn mfn i) with
      | none =>
          have hg := gbpp_spec rem (slotPos dfn mfn i)
          rw [hpick] at hg
          have hself : specSelect ((idxFrom i (n + 1)).map (slotPos dfn mfn)) rem = none := by
            rw [show idxFrom i (n + 1) = i :: idxFrom (i + 1) n from rfl, List.map_cons,
              specSelect, hpick]
          rw [hself]
          refine ⟨s, ?_⟩
          simp only [show idxFrom i (n + 1) = i :: idxFrom (i + 1) n from rfl, gbpGo, hstep,
            show get_best_players_per_position rem (slotPos dfn mfn i) =
              .error .formationError from hg]
      | some p =>
          have hg := gbpp_spec rem (slotPos dfn mfn i)
          rw [hpick] at hg
          obtain ⟨l, hl, -, hlhead⟩ := hg
          have hgo : gbpGo dfn mfn fwn (idxFrom i (n + 1)) s rem
              = gbpGo dfn mfn fwn (idxFrom (i + 1) n)
                  (add_player s i (.team p)) (rem.erase p) := by
            simp only [show idxFrom i (n + 1) = i :: idxFrom (i + 1) n from rfl, gbpGo, hstep,
              hl, hlhead]
          have hsel : specSelect ((idxFrom i (n + 1)).map (slotPos dfn mfn)) rem =
              match specSelect ((idxFrom (i + 1) n).map (slotPos dfn mfn)) (rem.erase p) with
              | none => none
              | some ar => some ((slotPos dfn mfn i, p) :: ar.1, ar.2) := by
            rw [show idxFrom i (n + 1) = i :: idxFrom (i + 1) n from rfl, List.map_cons,
              specSelect, hpick]
          by_cases h0 : i = 0
          · subst h0
            have hslot : slotPos dfn mfn 0 = .GK := by simp [slotPos]
            rw [hslot] at hsel
            have ihh := ih 1 { s with
                heap := s.heap ++ [⟨p, .GK, false⟩]
                gk := some s.heap.length } (rem.erase p) (by omega) (by simpa using hfs)
              (by simpa using hld) (by simpa using hlm) (by simpa using hlf)
            rw [add_player_team_gk s p] at hgo
            cases hsel2 : specSelect ((idxFrom 1 n).map (slotPos dfn mfn)) (rem.erase p) with
            | none =>
                rw [hsel2] at ihh
                obtain ⟨t, hterr⟩ := ihh
                rw [hsel, hsel2]
                exact ⟨t, hgo.trans hterr⟩
            | some ar =>
                rw [hsel2] at ihh
                rw [hsel, hsel2]
                exact hgo.trans ihh
          · by_cases hdf : i ≤ dfn
            · have hslot : slotPos dfn mfn i = .DF := by
                unfold slotPos
                rw [if_neg h0, if_pos hdf]
              rw [hslot] at hsel
              have ihh := ih (i + 1) { s with
                  heap := s.heap ++ [⟨p, .DF, false⟩]
                  df := s.df ++ [s.heap.length] } (rem.erase p) (by omega)
                (by simpa using hfs)
                (by simp [hld]; omega) (by simp [hlm]; omega) (by simp [hlf]; omega)
              rw [add_player_team_df s p i dfn mfn fwn hfs (by omega) hdf
                (by rw [hld]; omega)] at hgo
              cases hsel2 : specSelect ((idxFrom (i + 1) n).map (slotPos dfn mfn))
                  (rem.erase p) with
              | none =>
                  rw [hsel2] at ihh
                  obtain ⟨t, hterr⟩ := ihh
                  rw [hsel, hsel2]
                  exact ⟨t, hgo.trans hterr⟩
              | some ar =>
                  rw [hsel2] at ihh
                  rw [hsel, hsel2]
                  exact hgo.trans ihh
            · by_cases hmf : i ≤ dfn + mfn
              · have hslot : slotPos dfn mfn i = .MF := by
                  unfold slotPos
                  rw [if_neg h0, if_neg hdf, if_pos hmf]
                rw [hslot] at hsel
                have ihh := ih (i + 1) { s with
                    heap := s.heap ++ [⟨p, .MF, false⟩]
                    mf := s.mf ++ [s.heap.length] } (rem.erase p) (by omega)
                  (by simpa using hfs)
                  (by simp [hld]; omega) (by simp [hlm]; omega) (by simp [hlf]; omega)
                rw [add_player_team_mf s p i dfn mfn fwn hfs (by omega) hmf
                  (by rw [hlm]; omega)] at hgo
                cases hsel2 : specSelect ((idxFrom (i + 1) n).map (slotPos dfn mfn))
                    (rem.erase p) with
                | none =>
                    rw [hsel2] at ihh
                    obtain ⟨t, hterr⟩ := ihh
                    rw [hsel, hsel2]
                    exact ⟨t, hgo.trans hterr⟩
                | some ar =>
                    rw [hsel2] at ihh
                    rw [hsel, hsel2]
                    exact hgo.trans ihh
              · have hslot : slotPos dfn mfn i = .FW := by
                  unfold slotPos
                  rw [if_neg h0, if_neg hdf, if_neg hmf]
                rw [hslot] at hsel
                have ihh := ih (i + 1) { s with
                    heap := s.heap ++ [⟨p, .FW, false⟩]
                    fw := s.fw ++ [s.heap.length] } (rem.erase p) (by omega)
                  (by simpa using hfs)
                  (by simp [hld]; omega) (by simp [hlm]; omega) (by simp [hlf]; omega)
                rw [add_player_team_fw s p i dfn mfn fwn hfs (by omega) (by omega)
                  (by rw [hlf]; omega)] at hgo
                cases hsel2 : specSelect ((idxFrom (i + 1) n).map (slotPos dfn mfn))
                    (rem.erase p) with
                | none =>
                    rw [hsel2] at ihh
                    obtain ⟨t, hterr⟩ := ihh
                    rw [hsel, hsel2]
                    exact ⟨t, hgo.trans hterr⟩
                | some ar =>
                    rw [hsel2] at ihh
                    rw [hsel, hsel2]
                    exact hgo.trans ihh

theorem getD_append_cons (l : List PSim) (v : PSim) (l2 : List PSim) :
    (l ++ v :: l2).getD l.length default = v := by
  simp [List.getD_eq_getElem?_getD, List.getElem?_append_right (le_refl l.length)]

theorem allocBench_spec (vs : List PSim) : ∀ (s : St),
    (allocBench s vs).1.heap = s.heap ++ vs ∧
    (allocBench s vs).2.map (allocBench s vs).1.deref = vs ∧
    (allocBench s vs).1.formation_string = s.formation_string ∧
    (allocBench s vs).1.gk = s.gk ∧
    (allocBench s vs).1.df = s.df ∧
    (allocBench s vs).1.mf = s.mf ∧
    (allocBench s vs).1.fw = s.fw ∧
    (allocBench s vs).1.bench = s.bench ∧
    (allocBench s vs).1.history = s.history := by
  induction vs with
  | nil =>
      intro s
      exact ⟨(List.append_nil _).symm, rfl, rfl, rfl, rfl, rfl, rfl, rfl, rfl⟩
  | cons v vs ih =>
      intro s
      obtain ⟨hh, hm, h3, h4, h5, h6, h7, h8, h9⟩ := ih { s with heap := s.heap ++ [v] }
      refine ⟨?_, ?_, h3, h4, h5, h6, h7, h8, h9⟩
      · show (allocBench { s with heap := s.heap ++ [v] } vs).1.heap = s.heap ++ v :: vs
        rw [hh]
        simp
      · show (s.heap.length :: (allocBench { s with heap := s.heap ++ [v] } vs).2).map
            (allocBench { s with heap := s.heap ++ [v] } vs).1.deref = v :: vs
        rw [List.map_cons, hm]
        congr 1
        show (allocBench { s with heap := s.heap ++ [v] } vs).1.heap.getD s.heap.length default
          = v
        rw [hh]
        simpa using getD_append_cons s.heap v vs

theorem picksOf_cons_self (pos : Positions) (q : PlayerTeam)
    (rest : List (Positions × PlayerTeam)) :
    picksOf ((pos, q) :: rest) pos = q :: picksOf rest pos := by
  simp [picksOf]

theorem picksOf_cons_other (pos pos' : Positions) (q : PlayerTeam)
    (rest : List (Positions × PlayerTeam)) (h : pos ≠ pos') :
    picksOf ((pos, q) :: rest) pos' = picksOf rest pos' := by
  simp [picksOf, h]

theorem applyAssign_cons_gk (s : St) (p : PlayerTeam) (rest : List (Positions × PlayerTeam)) :
    applyAssign s ((Positions.GK, p) :: rest)
      = applyAssign { s with
          heap := s.heap ++ [⟨p, .GK, false⟩]
          gk := some s.heap.length } rest := rfl

theorem applyAssign_cons_df (s : St) (p : PlayerTeam) (rest : List (Positions × PlayerTeam)) :
    applyAssign s ((Positions.DF, p) :: rest)
      = applyAssign { s with
          heap := s.heap ++ [⟨p, .DF, false⟩]
          df := s.df ++ [s.heap.length] } rest := rfl

theorem applyAssign_cons_mf (s : St) (p : PlayerTeam) (rest : List (Positions × PlayerTeam)) :
    applyAssign s ((Positions.MF, p) :: rest)
      = applyAssign { s with
          heap := s.heap ++ [⟨p, .MF, false⟩]
          mf := s.mf ++ [s.heap.length] } rest := rfl

theorem applyAssign_cons_fw (s : St) (p : PlayerTeam) (rest : List (Positions × PlayerTeam)) :
    applyAssign s ((Positions.FW, p) :: rest)
      = applyAssign { s with
          heap := s.heap ++ [⟨p, .FW, false⟩]
          fw := s.fw ++ [s.heap.length] } rest := rfl

theorem applyAssign_spec (a : List (Positions × PlayerTeam)) : ∀ (s : St),
    (applyAssign s a).heap = s.heap ++ a.map wrapAssign ∧
    (applyAssign s a).formation_string = s.formation_string ∧
    (applyAssign s a).bench = s.bench ∧
    (applyAssign s a).history = s.history ∧
    ((applyAssign s a).df.map (applyAssign s a).deref
      = s.df.map (applyAssign s a).deref
          ++ (picksOf a .DF).map (fun p => (⟨p, .DF, false⟩ : PSim))) ∧
    ((applyAssign s a).mf.map (applyAssign s a).deref
      = s.mf.map (applyAssign s a).deref
          ++ (picksOf a .MF).map (fun p => (⟨p, .MF, false⟩ : PSim))) ∧
    ((applyAssign s a).fw.map (applyAssign s a).deref
      = s.fw.map (applyAssign s a).deref
          ++ (picksOf a .FW).map (fun p => (⟨p, .FW, false⟩ : PSim))) ∧
    (picksOf a .GK = [] → (applyAssign s a).gk = s.gk) ∧
    ((∀ r ∈ s.df, r < s.heap.length) →
      ∀ r ∈ (applyAssign s a).df, r < (applyAssign s a).heap.length) ∧
    ((∀ r ∈ s.mf, r < s.heap.length) →
      ∀ r ∈ (applyAssign s a).mf, r < (applyAssign s a).heap.length) ∧
    ((∀ r ∈ s.fw, r < s.heap.length) →
      ∀ r ∈ (applyAssign s a).fw, r < (applyAssign s a).heap.length) := by
  induction a with
  | nil =>
      intro s
      refine ⟨by simp [applyAssign], rfl, rfl, rfl, by simp [applyAssign, picksOf],
        by simp [applyAssign, picksOf], by simp [applyAssign, picksOf], fun _ => rfl,
        ?_, ?_, ?_⟩ <;>
        exact fun h r hr => h r hr
  | cons q rest ih =>
      intro s
      obtain ⟨pos, p⟩ := q
      cases pos
      case GK =>
          simp only [applyAssign_cons_gk]
          obtain ⟨hh, h2, h3, h4, h5, h6, h7, h8, h9, h10, h11⟩ :=
            ih { s with
              heap := s.heap ++ [⟨p, .GK, false⟩]
              gk := some s.heap.length }
          refine ⟨?_, h2, h3, h4, ?_, ?_, ?_, ?_, ?_, ?_, ?_⟩
          · rw [hh]
            simp [wrapAssign]
          · rw [h5, picksOf_cons_other _ _ _ _ (by decide)]
          · rw [h6, picksOf_cons_other _ _ _ _ (by decide)]
          · rw [h7, picksOf_cons_other _ _ _ _ (by decide)]
          · intro hgk
            rw [picksOf_cons_self] at hgk
            cases hgk
          · intro h r hr
            exact h9 (fun r2 hr2 => lt_of_lt_of_le (h r2 hr2) (by simp)) r hr
          · intro h r hr
            exact h10 (fun r2 hr2 => lt_of_lt_of_le (h r2 hr2) (by simp)) r hr
          · intro h r hr
            exact h11 (fun r2 hr2 => lt_of_lt_of_le (h r2 hr2) (by simp)) r hr
      case DF =>
          simp only [applyAssign_cons_df]
          obtain ⟨hh, h2, h3, h4, h5, h6, h7, h8, h9, h10, h11⟩ :=
            ih { s with
              heap := s.heap ++ [⟨p, .DF, false⟩]
              df := s.df ++ [s.heap.length] }
          refine ⟨?_, h2, h3, h4, ?_, ?_, ?_, ?_, ?_, ?_, ?_⟩
          · rw [hh]
            simp [wrapAssign]
          · rw [h5, picksOf_cons_self]
            simp only [List.map_append, List.map_cons, List.map_nil, List.append_assoc,
              List.cons_append, List.nil_append]
            congr 2
            show (applyAssign _ rest).heap.getD s.heap.length default = _
            rw [hh]
            simpa [wrapAssign] using
              getD_append_cons s.heap (⟨p, .DF, false⟩ : PSim) (rest.map wrapAssign)
          · rw [h6, picksOf_cons_other _ _ _ _ (by decide)]
          · rw [h7, picksOf_cons_other _ _ _ _ (by decide)]
          · intro hgk
            rw [picksOf_cons_other _ _ _ _ (by decide)] at hgk
            exact h8 hgk
          · intro h r hr
            refine h9 ?_ r hr
            intro r2 hr2
            rcases List.mem_append.mp hr2 with hl | hs
            · exact lt_of_lt_of_le (h r2 hl) (by simp)
            · have : r2 = s.heap.length := by simpa using hs
              subst this
              simp
          · intro h r hr
            exact h10 (fun r2 hr2 => lt_of_lt_of_le (h r2 hr2) (by simp)) r hr
          · intro h r hr
            exact h11 (fun r2 hr2 => lt_of_lt_of_le (h r2 hr2) (by simp)) r hr
      case MF =>
          simp only [applyAssign_cons_mf]
          obtain ⟨hh, h2, h3, h4, h5, h6, h7, h8, h9, h10, h11⟩ :=
            ih { s with
              heap := s.heap ++ [⟨p, .MF, false⟩]
              mf := s.mf ++ [s.heap.length] }
          refine ⟨?_, h2, h3, h4, ?_, ?_, ?_, ?_, ?_, ?_, ?_⟩
          · rw [hh]
            simp [wrapAssign]
          · rw [h5, picksOf_cons_other _ _ _ _ (by decide)]
          · rw [h6, picksOf_cons_self]
            simp only [List.map_append, List.map_cons, List.map_nil, List.append_assoc,
              List.cons_append, List.nil_append]
            congr 2
            show (applyAssign _ rest).heap.getD s.heap.length default = _
            rw [hh]
            simpa [wrapAssign] using
              getD_append_cons s.heap (⟨p, .MF, false⟩ : PSim) (rest.map wrapAssign)
          · rw [h7, picksOf_cons_other _ _ _ _ (by decide)]
          · intro hgk
            rw [picksOf_cons_other _ _ _ _ (by decide)] at hgk
            exact h8 hgk
          · intro h r hr
            exact h9 (fun r2 hr2 => lt_of_lt_of_le (h r2 hr2) (by simp)) r hr
          · intro h r hr
            refine h10 ?_ r hr
            intro r2 hr2
            rcases List.mem_append.mp hr2 with hl | hs
            · exact lt_of_lt_of_le (h r2 hl) (by simp)
            · have : r2 = s.heap.length := by simpa using hs
              subst this
              simp
          · intro h r hr
            exact h11 (fun r2 hr2 => lt_of_lt_of_le (h r2 hr2) (by simp)) r hr
      case FW =>
          simp only [applyAssign_cons_fw]
          obtain ⟨hh, h2, h3, h4, h5, h6, h7, h8, h9, h10, h11⟩ :=
            ih { s with
              heap := s.heap ++ [⟨p, .FW, false⟩]
              fw := s.fw ++ [s.heap.length] }
          refine ⟨?_, h2, h3, h4, ?_, ?_, ?_, ?_, ?_, ?_, ?_⟩
          · rw [hh]
            simp [wrapAssign]
          · rw [h5, picksOf_cons_other _ _ _ _ (by decide)]
          · rw [h6, picksOf_cons_other _ _ _ _ (by decide)]
          · rw [h7, picksOf_cons_self]
            simp only [List.map_append, List.map_cons, List.map_nil, List.append_assoc,
              List.cons_append, List.nil_append]
            congr 2
            show (applyAssign _ rest).heap.getD s.heap.length default = _
            rw [hh]
            simpa [wrapAssign] using
              getD_append_cons s.heap (⟨p, .FW, false⟩ : PSim) (rest.map wrapAssign)
          · intro hgk
            rw [picksOf_cons_other _ _ _ _ (by decide)] at hgk
            exact h8 hgk
          · intro h r hr
            exact h9 (fun r2 hr2 => lt_of_lt_of_le (h r2 hr2) (by simp)) r hr
          · intro h r hr
            exact h10 (fun r2 hr2 => lt_of_lt_of_le (h r2 hr2) (by simp)) r hr
          · intro h r hr
            refine h11 ?_ r hr
            intro r2 hr2
            rcases List.mem_append.mp hr2 with hl | hs
            · exact lt_of_lt_of_le (h r2 hl) (by simp)
            · have : r2 = s.heap.length := by simpa using hs
              subst this
              simp

theorem applyAssign_gk_head (s : St) (p : PlayerTeam) (rest : List (Positions × PlayerTeam))
    (hng : picksOf rest .GK = []) :
    (applyAssign s ((Positions.GK, p) :: rest)).gk = some s.heap.length ∧
    (applyAssign s ((Positions.GK, p) :: rest)).deref s.heap.length = ⟨p, .GK, false⟩ := by
  rw [applyAssign_cons_gk]
  obtain ⟨hh, -, -, -, -, -, -, h8, -, -, -⟩ :=
    applyAssign_spec rest { s with
      heap := s.heap ++ [⟨p, .GK, false⟩]
      gk := some s.heap.length }
  constructor
  · rw [h8 hng]
  · show (applyAssign _ rest).heap.getD s.heap.length default = _
    rw [hh]
    simpa using getD_append_cons s.heap (⟨p, .GK, false⟩ : PSim) (rest.map wrapAssign)

theorem map_insertAscBy (f : α → β) (key : β → Nat) (x : α) (l : List α) :
    (insertAscBy (fun a => key (f a)) x l).map f = insertAscBy key (f x) (l.map f) := by
  induction l with
  | nil => rfl
  | cons y ys ih =>
      rw [insertAscBy, List.map_cons, insertAscBy]
      by_cases h : key (f x) ≤ key (f y)
      · rw [if_pos h, if_pos h]
        rfl
      · rw [if_neg h, if_neg h, List.map_cons, ih]

theorem map_sortAscBy (f : α → β) (key : β → Nat) (l : List α) :
    (sortAscBy (fun a => key (f a)) l).map f = sortAscBy key (l.map f) := by
  induction l with
  | nil => rfl
  | cons x xs ih => rw [sortAscBy, List.map_cons, sortAscBy, ← ih, map_insertAscBy]

theorem leftmostMaxBy_mem (key : α → Int) (l : List α) (p : α)
    (h : leftmostMaxBy key l = some p) : p ∈ l := by
  induction l generalizing p with
  | nil => cases h
  | cons x xs ih =>
      rw [leftmostMaxBy] at h
      cases hm : leftmostMaxBy key xs with
      | none =>
          rw [hm] at h
          cases h
          exact List.mem_cons_self _ _
      | some m =>
          rw [hm] at h
          dsimp only at h
          split at h
          · cases h
            exact List.mem_cons_of_mem _ (ih _ hm)
          · cases h
            exact List.mem_cons_self _ _

theorem specPick_mem (rem : List PlayerTeam) (pos : Positions) (p : PlayerTeam)
    (h : specPick rem pos = some p) : p ∈ rem := by
  have := leftmostMaxBy_mem _ _ _ h
  exact List.mem_of_mem_filter this

theorem specSelect_props (slots : List Positions) :
    ∀ (rem : List PlayerTeam) (a : List (Positions × PlayerTeam)) (r : List PlayerTeam),
      specSelect slots rem = some (a, r) → rem.Nodup →
      a.map Prod.fst = slots ∧
      (a.map Prod.snd).Nodup ∧
      (∀ q ∈ a.map Prod.snd, q ∈ rem) ∧
      (∀ x, x ∈ r ↔ x ∈ rem ∧ x ∉ a.map Prod.snd) := by
  induction slots with
  | nil =>
      intro rem a r h hnd
      cases h
      exact ⟨rfl, List.nodup_nil, by simp, by simp⟩
  | cons pos ps ih =>
      intro rem a r h hnd
      cases hp : specPick rem pos with
      | none =>
          simp only [specSelect, hp] at h
          cases h
      | some p =>
          simp only [specSelect, hp] at h
          cases hsel : specSelect ps (rem.erase p) with
          | none =>
              simp only [hsel] at h
              cases h
          | some ar =>
              simp only [hsel] at h
              obtain ⟨rfl, rfl⟩ := h
              have hp_mem : p ∈ rem := specPick_mem rem pos p hp
              have hnd2 : (rem.erase p).Nodup := hnd.erase p
              obtain ⟨ih1, ih2, ih3, ih4⟩ := ih (rem.erase p) ar.1 ar.2 (by rw [hsel]) hnd2
              refine ⟨by simp [ih1], ?_, ?_, ?_⟩
              · rw [List.map_cons, List.nodup_cons]
                refine ⟨?_, ih2⟩
                intro hpmem
                have := ih3 p hpmem
                exact (hnd.not_mem_erase) this
              · intro q hq
                rcases List.mem_cons.mp hq with rfl | hq2
                · exact hp_mem
                · exact List.mem_of_mem_erase (ih3 q hq2)
              · intro x
                rw [ih4 x, List.Nodup.mem_erase_iff hnd]
                simp only [List.map_cons, List.mem_cons]
                constructor
                · rintro ⟨⟨hxp, hxrem⟩, hxnot⟩
                  exact ⟨hxrem, fun hc => hc.elim hxp hxnot⟩
                · rintro ⟨hxrem, hxnot⟩
                  exact ⟨⟨fun hc => hxnot (Or.inl hc), hxrem⟩, fun hc => hxnot (Or.inr hc)⟩

theorem parse_valid (fs : String) (h : fs ∈ FORMATION_STRINGS) :
    (get_num_players_str fs).1 + (get_num_players_str fs).2.1
        + (get_num_players_str fs).2.2 = 10 ∧
    (idxFrom 0 11).map (slotPos (get_num_players_str fs).1 (get_num_players_str fs).2.1)
      = slotList (get_num_players_str fs).1 (get_num_players_str fs).2.1
          (get_num_players_str fs).2.2 := by
  simp only [FORMATION_STRINGS, List.mem_cons, List.not_mem_nil, or_false] at h
  rcases h with rfl | rfl | rfl | rfl | rfl | rfl | rfl | rfl <;> exact ⟨by decide, by decide⟩

/-! Lemmas about the boundary check and the run loop. -/

theorem gnib_at_450_or_1050 (s : ClockState) (h : s.minutes = 450 ∨ s.minutes = 1050) :
    game_is_not_in_break s = (false, { s with is_half_time := true }) := by
  rcases h with h | h <;> simp [game_is_not_in_break, h]

theorem gnib_other (s : ClockState) (h0 : s.minutes ≠ 1200) (h1 : s.minutes ≠ 450)
    (h2 : s.minutes ≠ 1050) (h3 : s.minutes ≠ 900) :
    game_is_not_in_break s = (true, s) := by
  simp [game_is_not_in_break, h0, h1, h2, h3]

theorem runBody_other (s : ClockState) (h0 : s.minutes ≠ 1200) (h1 : s.minutes ≠ 450)
    (h2 : s.minutes ≠ 1050) (h3 : s.minutes ≠ 900) :
    runBody s = { s with minutes := s.minutes + 1 } := by
  simp [runBody, gnib_other s h0 h1 h2 h3, engine_run]

theorem runBody_at_450 (s : ClockState) (h : s.minutes = 450) :
    runBody s = { s with is_half_time := true } := by
  simp [runBody, gnib_at_450_or_1050 s (Or.inl h)]

theorem runFuel_halted (n : Nat) (s : ClockState) (h : s.is_half_time = true) :
    runFuel n s = s := by
  induction n with
  | zero => rfl
  | succ n _ => simp [runFuel, h]

theorem runBody_minutes_le (s : ClockState) (h : s.minutes ≤ 450) :
    (runBody s).minutes ≤ 450 := by
  by_cases h450 : s.minutes = 450
  · rw [runBody_at_450 s h450]
    simpa using h
  · rw [runBody_other s (by omega) h450 (by omega) (by omega)]
    simp
    omega

theorem runFuel_minutes_le (k : Nat) (s : ClockState) (h : s.minutes ≤ 450) :
    (runFuel k s).minutes ≤ 450 := by
  induction k generalizing s with
  | zero => exact h
  | succ k ih =>
      rw [runFuel]
      split
      · exact h
      · exact ih _ (runBody_minutes_le s h)

theorem runFuel_climb :
    ∀ (n j : Nat) (pet pp : Bool) (hs as : Nat), j + n = 451 → j ≤ 450 →
      runFuel n ⟨j, false, false, pet, pp, hs, as⟩ = ⟨450, true, false, pet, pp, hs, as⟩ := by
  intro n
  induction n with
  | zero => intro j pet pp hs as h1 h2; omega
  | succ n ih =>
      intro j pet pp hs as h1 h2
      rw [runFuel]
      simp only [Bool.or_self, if_neg (by simp : ¬ ((false || false : Bool) = true))]
      by_cases hj : j = 450
      · subst hj
        rw [runBody_at_450 _ rfl]
        exact runFuel_halted n _ rfl
      · rw [runBody_other ⟨j, false, false, pet, pp, hs, as⟩ (by change j ≠ 1200; omega)
          (by change j ≠ 450; omega) (by change j ≠ 1050; omega) (by change j ≠ 900; omega)]
        exact ih (j + 1) pet pp hs as (by omega) (by omega)

/-- Claim C4: the boundary check of the match clock, evaluated before a
tick is resolved, behaves as follows.  At 120.0 minutes, if penalties
are possible and the score is tied the half-time flag is set, otherwise
the game-over flag is set.  At 45.0 or 105.0 minutes the half-time flag
is set.  At 90.0 minutes, if extra time is possible and the score is
tied the half-time flag is set (game-over untouched), otherwise the
game-over flag is set.  At any other minute value the check changes no
flag and the loop body resolves the tick and advances the clock by one
tenth of a minute. -/
theorem clock_boundary_spec (s : ClockState) :
    (s.minutes = 1200 →
      (s.possible_penalties && is_game_a_draw s) = true →
        game_is_not_in_break s = (false, { s with is_half_time := true })) ∧
    (s.minutes = 1200 →
      (s.possible_penalties && is_game_a_draw s) = false →
        game_is_not_in_break s = (false, { s with is_game_over := true })) ∧
    (s.minutes = 450 ∨ s.minutes = 1050 →
        game_is_not_in_break s = (false, { s with is_half_time := true })) ∧
    (s.minutes = 900 →
      (s.possible_extra_time && is_game_a_draw s) = true →
        game_is_not_in_break s = (false, { s with is_half_time := true })) ∧
    (s.minutes = 900 →
      (s.possible_extra_time && is_game_a_draw s) = false →
        game_is_not_in_break s = (false, { s with is_game_over := true })) ∧
    (s.minutes ≠ 1200 → s.minutes ≠ 450 → s.minutes ≠ 1050 → s.minutes ≠ 900 →
        game_is_not_in_break s = (true, s) ∧
        runBody s = { s with minutes := s.minutes + 1 }) := by
  refine ⟨?_, ?_, ?_, ?_, ?_, ?_⟩
  · intro h hd; simp [game_is_not_in_break, h, hd]
  · intro h hd; simp [game_is_not_in_break, h, hd]
  · exact gnib_at_450_or_1050 s
  · intro h hd; simp [game_is_not_in_break, h, hd]
  · intro h hd; simp [game_is_not_in_break, h, hd]
  · intro h0 h1 h2 h3
    exact ⟨gnib_other s h0 h1 h2 h3, runBody_other s h0 h1 h2 h3⟩

/-- Witness for C4: the boundary cases evaluated at concrete clock
states. -/
theorem clock_boundary_spec_witness :
    game_is_not_in_break ⟨1200, false, false, true, true, 1, 1⟩ =
      (false, ⟨1200, true, false, true, true, 1, 1⟩) ∧
    game_is_not_in_break ⟨1200, false, false, true, false, 1, 1⟩ =
      (false, ⟨1200, false, true, true, false, 1, 1⟩) ∧
    game_is_not_in_break ⟨450, false, false, true, true, 0, 0⟩ =
      (false, ⟨450, true, false, true, true, 0, 0⟩) ∧
    game_is_not_in_break ⟨900, false, false, true, false, 2, 2⟩ =
      (false, ⟨900, true, false, true, false, 2, 2⟩) ∧
    game_is_not_in_break ⟨900, false, false, false, false, 2, 1⟩ =
      (false, ⟨900, false, true, false, false, 2, 1⟩) ∧
    runBody ⟨37, false, false, true, true, 0, 0⟩ = ⟨38, false, false, true, true, 0, 0⟩ :=
  ⟨(clock_boundary_spec _).1 rfl (by decide),
   (clock_boundary_spec _).2.1 rfl (by decide),
   (clock_boundary_spec _).2.2.1 (Or.inl rfl),
   (clock_boundary_spec _).2.2.2.1 rfl (by decide),
   (clock_boundary_spec _).2.2.2.2.1 rfl (by decide),
   ((clock_boundary_spec _).2.2.2.2.2 (by decide) (by decide) (by decide) (by decide)).2⟩

/-- Claim C5: starting from a fresh clock at 0.0 minutes, a single call
to `run()` terminates with minutes exactly 45.0 (450 tenths) and the
half-time flag set, and never advances minutes past 45.0 within that
call: 451 loop iterations reach the fixed point, further iterations do
not move it, and after any number of iterations minutes stay ≤ 450. -/
theorem run_first_half (pet pp : Bool) :
    runFuel 451 (initClock pet pp) = ⟨450, true, false, pet, pp, 0, 0⟩ ∧
    (∀ n, runFuel n (runFuel 451 (initClock pet pp)) = runFuel 451 (initClock pet pp)) ∧
    (∀ k, (runFuel k (initClock pet pp)).minutes ≤ 450) := by
  have hrun : runFuel 451 (initClock pet pp) = ⟨450, true, false, pet, pp, 0, 0⟩ :=
    runFuel_climb 451 0 pet pp 0 0 rfl (by omega)
  refine ⟨hrun, ?_, ?_⟩
  · intro n
    rw [hrun]
    exact runFuel_halted n _ rfl
  · intro k
    exact runFuel_minutes_le k _ (by simp [initClock])

/-- Claim C10: calling `change_formation` with a string outside the
eight enumerated codes raises `FormationError` while leaving the
gk/df/mf/fw/bench collections (and the history stack) unchanged, but
the `formation_string` field has already been overwritten with the
invalid code when the error is raised. -/
theorem change_formation_invalid (s : St) (fs : String) (h : fs ∉ FORMATION_STRINGS) :
    change_formation s fs = .error (.formationError, { s with formation_string := fs }) ∧
    (stateOf (change_formation s fs)).gk = s.gk ∧
    (stateOf (change_formation s fs)).df = s.df ∧
    (stateOf (change_formation s fs)).mf = s.mf ∧
    (stateOf (change_formation s fs)).fw = s.fw ∧
    (stateOf (change_formation s fs)).bench = s.bench ∧
    (stateOf (change_formation s fs)).history = s.history ∧
    (stateOf (change_formation s fs)).formation_string = fs := by
  have hcf : change_formation s fs =
      .error (.formationError, { s with formation_string := fs }) := by
    simp [change_formation, validate_formation, h]
  refine ⟨hcf, ?_, ?_, ?_, ?_, ?_, ?_, ?_⟩ <;> rw [hcf] <;> rfl

/-- Witness for C10: `change_formation` on the invalid code `"4-4-3"`
(the code the repository's own test uses) from a valid formation. -/
theorem change_formation_invalid_witness :
    change_formation ⟨[], "4-4-2", none, [], [], [], [], []⟩ "4-4-3" =
      .error (.formationError, ⟨[], "4-4-3", none, [], [], [], [], []⟩) :=
  (change_formation_invalid ⟨[], "4-4-2", none, [], [], [], [], []⟩ "4-4-3" (by decide)).1

/-- Counterexample to claim C8 as stated: for an already-wrapped match
slot, `add_player(0, P)` sets the keeper slot to P but leaves P's
current position unchanged (here DF, not Goalkeeper). -/
theorem add_player_keeper_cex :
    (add_player ⟨[⟨mkP 7 .FW, .DF, false⟩], "4-4-2", none, [], [], [], [], []⟩ 0 (.sim 0)).gk
        = some 0 ∧
    ((add_player ⟨[⟨mkP 7 .FW, .DF, false⟩], "4-4-2", none, [], [], [], [], []⟩ 0
        (.sim 0)).deref 0).current_position = .DF := by
  constructor <;> rfl

/-- Claim C8 (amended): `add_player(0, P)` always sets the keeper slot
to P.  When P is a raw roster entry it is wrapped with current position
Goalkeeper irrespective of its intrinsic best position; when P is an
already-wrapped match slot its current position is left unchanged. -/
theorem add_player_keeper (s : St) :
    (∀ p : PlayerTeam,
      add_player s 0 (.team p) =
        { s with heap := s.heap ++ [⟨p, .GK, false⟩], gk := some s.heap.length }) ∧
    (∀ r : Ref, add_player s 0 (.sim r) = { s with gk := some r }) := by
  constructor
  · intro p
    simp [add_player, normalizeInput, St.alloc]
  · intro r
    simp [add_player, normalizeInput]

/-- Claim C7: when the bucket selected by the index is already at its
code-derived capacity, `add_player` appends the player to the bench
with the player's own intrinsic best position as current position and
leaves the buckets untouched; and no `add_player` call pushes a bucket
past its code-derived capacity. -/
theorem add_player_overflow_spec (s : St) (i : Nat) (inp : PlayerInput)
    (dfn mfn fwn : Nat) (hn : get_num_players_str s.formation_string = (dfn, mfn, fwn)) :
    (inputOk s inp →
      ((0 < i ∧ i ≤ dfn ∧ dfn ≤ s.df.length) ∨
       (dfn < i ∧ i ≤ dfn + mfn ∧ mfn ≤ s.mf.length) ∨
       (dfn + mfn < i ∧ i ≤ dfn + mfn + fwn ∧ fwn ≤ s.fw.length)) →
      (add_player s i inp).bench = s.bench ++ [inputRef s inp] ∧
      ((add_player s i inp).deref (inputRef s inp)).current_position =
        (inputPlayer s inp).best_position ∧
      ((add_player s i inp).deref (inputRef s inp)).player = inputPlayer s inp ∧
      (add_player s i inp).df = s.df ∧
      (add_player s i inp).mf = s.mf ∧
      (add_player s i inp).fw = s.fw ∧
      (add_player s i inp).gk = s.gk) ∧
    ((s.df.length ≤ dfn → (add_player s i inp).df.length ≤ dfn) ∧
     (s.mf.length ≤ mfn → (add_player s i inp).mf.length ≤ mfn) ∧
     (s.fw.length ≤ fwn → (add_player s i inp).fw.length ≤ fwn)) := by
  constructor
  · intro hok hover
    have h0 : ¬ i = 0 := by
      rcases hover with ⟨h, _, _⟩ | ⟨h, _, _⟩ | ⟨h, _, _⟩ <;> omega
    have c1 : ¬ (0 < i ∧ i ≤ dfn ∧ s.df.length < dfn) := by
      rcases hover with ⟨a, b, c⟩ | ⟨a, b, c⟩ | ⟨a, b, c⟩ <;> omega
    have c2 : ¬ (dfn < i ∧ i ≤ dfn + mfn ∧ s.mf.length < mfn) := by
      rcases hover with ⟨a, b, c⟩ | ⟨a, b, c⟩ | ⟨a, b, c⟩ <;> omega
    have c3 : ¬ (dfn + mfn < i ∧ i ≤ dfn + mfn + fwn ∧ s.fw.length < fwn) := by
      rcases hover with ⟨a, b, c⟩ | ⟨a, b, c⟩ | ⟨a, b, c⟩ <;> omega
    cases inp with
    | sim r =>
        simp only [add_player, normalizeInput, get_num_players, hn, if_neg h0, if_neg c1,
          if_neg c2, if_neg c3]
        refine ⟨rfl, ?_, ?_, rfl, rfl, rfl, rfl⟩ <;>
          simp [inputRef, inputPlayer, St.deref, St.setRef,
            List.getD_eq_getElem?_getD, List.getElem?_set_self (by simpa [inputOk] using hok :
              r < s.heap.length)]
    | team p =>
        simp only [add_player, normalizeInput, St.alloc, get_num_players, hn, if_neg h0,
          if_neg c1, if_neg c2, if_neg c3]
        have hlen : s.heap.length < (s.heap ++ [(⟨p, .GK, false⟩ : PSim)]).length := by
          simp
        refine ⟨rfl, ?_, ?_, rfl, rfl, rfl, rfl⟩ <;>
          simp [inputRef, inputPlayer, St.deref, St.setRef,
            List.getD_eq_getElem?_getD, List.getElem?_set_self hlen,
            List.getElem?_append_right, List.getElem?_concat_length]
  · cases inp with
    | sim r =>
        simp only [add_player, normalizeInput, get_num_players, hn]
        split_ifs <;> simp [St.setRef] <;> omega
    | team p =>
        simp only [add_player, normalizeInput, St.alloc, get_num_players, hn]
        split_ifs <;> simp [St.setRef] <;> omega

/-- Witness for C7: adding a fifth player at a defender index of a
4-4-2 whose defender bucket is full routes the player to the bench
with the player's own best position (midfielder). -/
theorem add_player_overflow_spec_witness :
    (add_player fullDfSt 1 (.sim 4)).bench = [4] ∧
    ((add_player fullDfSt 1 (.sim 4)).deref 4).current_position = .MF ∧
    (add_player fullDfSt 1 (.sim 4)).df = [0, 1, 2, 3] := by
  have h := (add_player_overflow_spec fullDfSt 1 (.sim 4) 4 4 2 (by decide)).1
    (by simp [inputOk, fullDfSt]) (Or.inl (by simp [fullDfSt]))
  exact ⟨h.1, h.2.1.trans (by decide), h.2.2.2.1⟩

/-! Frame lemmas for the reference-level (aliasing) model. -/

namespace Alias

theorem al_ne_of_lt_le {x n : Nat} (k : Nat) (h : x < n) : n + k ≠ x :=
  ne_of_gt (lt_of_lt_of_le h (Nat.le_add_right n k))

theorem al_getL_setL_other (s : St) (i j : LRef) (l : List Ref) (h : j ≠ i) :
    (s.setL i l).getL j = s.getL j := by
  simp [St.setL, St.getL, List.getD_eq_getElem?_getD, List.getElem?_set_ne (Ne.symm h)]

theorem al_setRef_df (s : St) (r : Ref) (v : PSim) : (s.setRef r v).df = s.df := rfl

theorem al_setRef_mf (s : St) (r : Ref) (v : PSim) : (s.setRef r v).mf = s.mf := rfl

theorem al_setRef_fw (s : St) (r : Ref) (v : PSim) : (s.setRef r v).fw = s.fw := rfl

theorem al_setRef_bench (s : St) (r : Ref) (v : PSim) : (s.setRef r v).bench = s.bench := rfl

theorem al_setRef_history (s : St) (r : Ref) (v : PSim) :
    (s.setRef r v).history = s.history := rfl

theorem al_setRef_getL (s : St) (r : Ref) (v : PSim) (j : LRef) :
    (s.setRef r v).getL j = s.getL j := rfl

theorem al_save_history_df (s : St) : (save_history s).df = s.df := by
  cases hg : s.gk <;> simp [save_history, hg]

theorem al_save_history_mf (s : St) : (save_history s).mf = s.mf := by
  cases hg : s.gk <;> simp [save_history, hg]

theorem al_save_history_fw (s : St) : (save_history s).fw = s.fw := by
  cases hg : s.gk <;> simp [save_history, hg]

theorem al_save_history_bench (s : St) : (save_history s).bench = s.bench := by
  cases hg : s.gk <;> simp [save_history, hg]

theorem al_save_history_lheap (s : St) :
    (save_history s).lheap
      = s.lheap ++ [s.getL s.df, s.getL s.mf, s.getL s.fw, s.getL s.bench] := by
  cases hg : s.gk <;> simp [save_history, hg]

theorem al_save_history_history (s : St) :
    (save_history s).history = s.history ++ [capturedMemento s] := by
  cases hg : s.gk <;> simp [save_history, capturedMemento, hg]

theorem al_getD_append_cons (l : List (List Ref)) (v : List Ref) (l2 : List (List Ref)) :
    (l ++ v :: l2).getD l.length [] = v := by
  simp [List.getD_eq_getElem?_getD, List.getElem?_append_right (le_refl l.length)]

theorem al_save_history_getL_fresh (s : St) :
    (save_history s).getL s.lheap.length = s.getL s.df ∧
    (save_history s).getL (s.lheap.length + 1) = s.getL s.mf ∧
    (save_history s).getL (s.lheap.length + 2) = s.getL s.fw ∧
    (save_history s).getL (s.lheap.length + 3) = s.getL s.bench := by
  have hl := al_save_history_lheap s
  have e1 : s.lheap ++ [s.getL s.df, s.getL s.mf, s.getL s.fw, s.getL s.bench]
      = (s.lheap ++ [s.getL s.df]) ++ s.getL s.mf :: [s.getL s.fw, s.getL s.bench] := by
    simp
  have e2 : s.lheap ++ [s.getL s.df, s.getL s.mf, s.getL s.fw, s.getL s.bench]
      = (s.lheap ++ [s.getL s.df, s.getL s.mf]) ++ s.getL s.fw :: [s.getL s.bench] := by
    simp
  have e3 : s.lheap ++ [s.getL s.df, s.getL s.mf, s.getL s.fw, s.getL s.bench]
      = (s.lheap ++ [s.getL s.df, s.getL s.mf, s.getL s.fw]) ++ s.getL s.bench :: [] := by
    simp
  refine ⟨?_, ?_, ?_, ?_⟩
  · show (save_history s).lheap.getD s.lheap.length [] = s.getL s.df
    rw [hl]
    exact al_getD_append_cons s.lheap (s.getL s.df) [s.getL s.mf, s.getL s.fw, s.getL s.bench]
  · show (save_history s).lheap.getD (s.lheap.length + 1) [] = s.getL s.mf
    rw [hl, e1]
    have := al_getD_append_cons (s.lheap ++ [s.getL s.df]) (s.getL s.mf)
      [s.getL s.fw, s.getL s.bench]
    simpa using this
  · show (save_history s).lheap.getD (s.lheap.length + 2) [] = s.getL s.fw
    rw [hl, e2]
    have := al_getD_append_cons (s.lheap ++ [s.getL s.df, s.getL s.mf]) (s.getL s.fw)
      [s.getL s.bench]
    simpa using this
  · show (save_history s).lheap.getD (s.lheap.length + 3) [] = s.getL s.bench
    rw [hl, e3]
    have := al_getD_append_cons (s.lheap ++ [s.getL s.df, s.getL s.mf, s.getL s.fw])
      (s.getL s.bench) []
    simpa using this

theorem al_placeInBucket_error_shape (s : St) (cp : Positions) (a b : Ref) (e : PyError)
    (t : St) (h : placeInBucket s cp a b = .error (e, t)) : e = .valueError ∧ t = s := by
  cases cp <;> simp only [placeInBucket] at h
  · cases h
  all_goals
    cases hrf : s.pyReplaceFirst _ a b <;> rw [hrf] at h <;> simp_all

theorem al_placeInBucket_ok_frame (s : St) (cp : Positions) (a b : Ref) (t : St)
    (h : placeInBucket s cp a b = .ok t) :
    t.heap = s.heap ∧ t.df = s.df ∧ t.mf = s.mf ∧ t.fw = s.fw ∧ t.bench = s.bench ∧
    t.history = s.history ∧
    (∀ j, j ≠ s.df → j ≠ s.mf → j ≠ s.fw → t.getL j = s.getL j) := by
  cases cp <;> simp only [placeInBucket] at h
  case GK =>
    cases h
    exact ⟨rfl, rfl, rfl, rfl, rfl, rfl, fun j _ _ _ => rfl⟩
  case DF =>
    cases hrf : s.pyReplaceFirst (s.getL s.df) a b <;> rw [hrf] at h
    · cases h
    · rename_i l
      cases h
      refine ⟨rfl, rfl, rfl, rfl, rfl, rfl, ?_⟩
      intro j hj _ _
      exact al_getL_setL_other s s.df j l hj
  case MF =>
    cases hrf : s.pyReplaceFirst (s.getL s.mf) a b <;> rw [hrf] at h
    · cases h
    · rename_i l
      cases h
      refine ⟨rfl, rfl, rfl, rfl, rfl, rfl, ?_⟩
      intro j _ hj _
      exact al_getL_setL_other s s.mf j l hj
  case FW =>
    cases hrf : s.pyReplaceFirst (s.getL s.fw) a b <;> rw [hrf] at h
    · cases h
    · rename_i l
      cases h
      refine ⟨rfl, rfl, rfl, rfl, rfl, rfl, ?_⟩
      intro j _ _ hj
      exact al_getL_setL_other s s.fw j l hj

theorem al_add_player_history (s : St) (i : Nat) (inp : PlayerInput) :
    (add_player s i inp).history = s.history := by
  rcases hgn : get_num_players_str s.formation_string with ⟨dfn, mfn, fwn⟩
  cases inp <;>
    simp only [add_player, normalizeInput, get_num_players, alloc, hgn] <;>
    split_ifs <;> simp [St.setRef, St.setL]

theorem al_addAllFrom_history (i : Nat) (l : List Ref) (s : St) :
    (addAllFrom s i l).history = s.history := by
  induction l generalizing s i with
  | nil => rfl
  | cons r rest ih => rw [addAllFrom, ih, al_add_player_history]

theorem al_change_formation_history (s : St) (fs : String) :
    (stateOf (change_formation s fs)).history = s.history := by
  simp only [change_formation]
  split
  · simp [stateOf, al_addAllFrom_history]
  · rfl

theorem al_substitute_check_fail (s : St) (pout pin : Ref)
    (h : ¬ (s.pyMem s.all_players pin = true ∧ s.pyMem s.all_players pout = true)) :
    substitute_player s pout pin = .error (.formationError, s) := by
  simp [substitute_player, h]

theorem al_move_check_fail (s : St) (a b : Ref)
    (h : ¬ s.pyMem s.all_players a = true) :
    move_player s a b = .error (.formationError, s) := by
  simp [move_player, h]

theorem al_substitute_tail (s : St) (pout pin : Ref)
    (h : s.pyMem s.all_players pin = true ∧ s.pyMem s.all_players pout = true)
    (j : LRef) (hj1 : j ≠ s.df) (hj2 : j ≠ s.mf) (hj3 : j ≠ s.fw) (hj4 : j ≠ s.bench) :
    (stateOf (substitute_player s pout pin)).history = (save_history s).history ∧
    (stateOf (substitute_player s pout pin)).getL j = (save_history s).getL j := by
  simp only [substitute_player, if_neg (not_not_intro h)]
  split
  · rename_i et heq
    obtain ⟨e, t⟩ := et
    obtain ⟨-, rfl⟩ := al_placeInBucket_error_shape _ _ _ _ _ _ heq
    exact ⟨rfl, rfl⟩
  · rename_i s2 heq
    have hfr := al_placeInBucket_ok_frame _ _ _ _ _ heq
    have hg2 : s2.getL j = (save_history s).getL j := by
      refine hfr.2.2.2.2.2.2 j ?_ ?_ ?_
      · rw [al_save_history_df]; exact hj1
      · rw [al_save_history_mf]; exact hj2
      · rw [al_save_history_fw]; exact hj3
    have hh2 : s2.history = (save_history s).history := hfr.2.2.2.2.2.1
    have hjb : j ≠ s2.bench := by
      rw [hfr.2.2.2.2.1, al_save_history_bench]
      exact hj4
    split
    · exact ⟨hh2, hg2⟩
    · rename_i bl heqr
      exact ⟨hh2, (al_getL_setL_other _ s2.bench j _ hjb).trans hg2⟩

theorem al_substitute_hist (s : St) (pout pin : Ref)
    (h : s.pyMem s.all_players pin = true ∧ s.pyMem s.all_players pout = true)
    (hdf : s.df < s.lheap.length) (hmf : s.mf < s.lheap.length)
    (hfw : s.fw < s.lheap.length) (hbe : s.bench < s.lheap.length) :
    (stateOf (substitute_player s pout pin)).history
        = s.history ++ [capturedMemento s] ∧
    (stateOf (substitute_player s pout pin)).getL (capturedMemento s).df
        = s.getL s.df ∧
    (stateOf (substitute_player s pout pin)).getL (capturedMemento s).mf
        = s.getL s.mf ∧
    (stateOf (substitute_player s pout pin)).getL (capturedMemento s).fw
        = s.getL s.fw ∧
    (stateOf (substitute_player s pout pin)).getL (capturedMemento s).bench
        = s.getL s.bench := by
  have hfresh := al_save_history_getL_fresh s
  have t0 := al_substitute_tail s pout pin h s.lheap.length
    (al_ne_of_lt_le 0 hdf) (al_ne_of_lt_le 0 hmf)
    (al_ne_of_lt_le 0 hfw) (al_ne_of_lt_le 0 hbe)
  have t1 := al_substitute_tail s pout pin h (s.lheap.length + 1)
    (al_ne_of_lt_le 1 hdf) (al_ne_of_lt_le 1 hmf)
    (al_ne_of_lt_le 1 hfw) (al_ne_of_lt_le 1 hbe)
  have t2 := al_substitute_tail s pout pin h (s.lheap.length + 2)
    (al_ne_of_lt_le 2 hdf) (al_ne_of_lt_le 2 hmf)
    (al_ne_of_lt_le 2 hfw) (al_ne_of_lt_le 2 hbe)
  have t3 := al_substitute_tail s pout pin h (s.lheap.length + 3)
    (al_ne_of_lt_le 3 hdf) (al_ne_of_lt_le 3 hmf)
    (al_ne_of_lt_le 3 hfw) (al_ne_of_lt_le 3 hbe)
  exact ⟨t0.1.trans (al_save_history_history s),
         t0.2.trans hfresh.1, t1.2.trans hfresh.2.1,
         t2.2.trans hfresh.2.2.1, t3.2.trans hfresh.2.2.2⟩

theorem al_move_tail (s : St) (a b : Ref) (h : s.pyMem s.all_players a = true)
    (j : LRef) (hj1 : j ≠ s.df) (hj2 : j ≠ s.mf) (hj3 : j ≠ s.fw) :
    (stateOf (move_player s a b)).history = (save_history s).history ∧
    (stateOf (move_player s a b)).getL j = (save_history s).getL j := by
  simp only [move_player, if_neg (not_not_intro h)]
  split
  · rename_i et heq
    obtain ⟨e, t⟩ := et
    obtain ⟨-, rfl⟩ := al_placeInBucket_error_shape _ _ _ _ _ _ heq
    exact ⟨rfl, rfl⟩
  · rename_i s2 heq
    have hfr := al_placeInBucket_ok_frame _ _ _ _ _ heq
    have hg2 : s2.getL j = (save_history s).getL j := by
      refine (hfr.2.2.2.2.2.2 j ?_ ?_ ?_).trans ?_
      · simp only [al_setRef_df, al_save_history_df]; exact hj1
      · simp only [al_setRef_mf, al_save_history_mf]; exact hj2
      · simp only [al_setRef_fw, al_save_history_fw]; exact hj3
      · rw [al_setRef_getL, al_setRef_getL]
    have hh2 : s2.history = (save_history s).history := by
      refine hfr.2.2.2.2.2.1.trans ?_
      rw [al_setRef_history, al_setRef_history]
    split
    · rename_i et2 heq2
      obtain ⟨e2, u2⟩ := et2
      obtain ⟨-, rfl⟩ := al_placeInBucket_error_shape _ _ _ _ _ _ heq2
      exact ⟨hh2, hg2⟩
    · rename_i s3 heq2
      have hfr2 := al_placeInBucket_ok_frame _ _ _ _ _ heq2
      have hg3 : s3.getL j = s2.getL j := by
        refine hfr2.2.2.2.2.2.2 j ?_ ?_ ?_
        · rw [hfr.2.1]; simp only [al_setRef_df, al_save_history_df]; exact hj1
        · rw [hfr.2.2.1]; simp only [al_setRef_mf, al_save_history_mf]; exact hj2
        · rw [hfr.2.2.2.1]; simp only [al_setRef_fw, al_save_history_fw]; exact hj3
      exact ⟨hfr2.2.2.2.2.2.1.trans hh2, hg3.trans hg2⟩

theorem al_move_hist (s : St) (a b : Ref) (h : s.pyMem s.all_players a = true)
    (hdf : s.df < s.lheap.length) (hmf : s.mf < s.lheap.length)
    (hfw : s.fw < s.lheap.length) :
    (stateOf (move_player s a b)).history = s.history ++ [capturedMemento s] ∧
    (stateOf (move_player s a b)).getL (capturedMemento s).df = s.getL s.df ∧
    (stateOf (move_player s a b)).getL (capturedMemento s).mf = s.getL s.mf ∧
    (stateOf (move_player s a b)).getL (capturedMemento s).fw = s.getL s.fw ∧
    (stateOf (move_player s a b)).getL (capturedMemento s).bench = s.getL s.bench := by
  have hfresh := al_save_history_getL_fresh s
  have t0 := al_move_tail s a b h s.lheap.length
    (al_ne_of_lt_le 0 hdf) (al_ne_of_lt_le 0 hmf) (al_ne_of_lt_le 0 hfw)
  have t1 := al_move_tail s a b h (s.lheap.length + 1)
    (al_ne_of_lt_le 1 hdf) (al_ne_of_lt_le 1 hmf) (al_ne_of_lt_le 1 hfw)
  have t2 := al_move_tail s a b h (s.lheap.length + 2)
    (al_ne_of_lt_le 2 hdf) (al_ne_of_lt_le 2 hmf) (al_ne_of_lt_le 2 hfw)
  have t3 := al_move_tail s a b h (s.lheap.length + 3)
    (al_ne_of_lt_le 3 hdf) (al_ne_of_lt_le 3 hmf) (al_ne_of_lt_le 3 hfw)
  exact ⟨t0.1.trans (al_save_history_history s),
         t0.2.trans hfresh.1, t1.2.trans hfresh.2.1,
         t2.2.trans hfresh.2.2.1, t3.2.trans hfresh.2.2.2⟩

end Alias

/-- Counterexample to claim C2 as stated, in the reference-level model.
(i) `add_player` mutates the formation (the referenced defender list
gains an element) without pushing any snapshot.  (ii) A pushed snapshot
is not immune to later mutation: a passing `substitute_player` pushes
the memento referencing list copies 4-7 whose defender copy then reads
`[1]`; restoring that memento installs those very list objects as the
live collections, so a subsequent `add_player` appends to list object 4
- the entry still sitting on the history stack now reads `[1, 4]`. -/
theorem history_push_cex :
    ((Alias.add_player Alias.pushSt 1 (.team (mkP 9 .DF))).getL Alias.pushSt.df
        = [1, 3] ∧
     (Alias.add_player Alias.pushSt 1 (.team (mkP 9 .DF))).history = []) ∧
    ((Alias.stateOf (Alias.substitute_player Alias.pushSt 1 2)).history
        = [⟨some 3, 4, 5, 6, 7⟩] ∧
     (Alias.stateOf (Alias.substitute_player Alias.pushSt 1 2)).getL 4 = [1] ∧
     (Alias.add_player
        (Alias.restore (Alias.stateOf (Alias.substitute_player Alias.pushSt 1 2))
          ⟨some 3, 4, 5, 6, 7⟩)
        1 (.team (mkP 9 .DF))).history = [⟨some 3, 4, 5, 6, 7⟩] ∧
     (Alias.add_player
        (Alias.restore (Alias.stateOf (Alias.substitute_player Alias.pushSt 1 2))
          ⟨some 3, 4, 5, 6, 7⟩)
        1 (.team (mkP 9 .DF))).getL 4 = [1, 4]) := by
  exact ⟨⟨rfl, rfl⟩, rfl, rfl, rfl, rfl⟩

/-- Claim C2 (amended): of the four mutating operations, only
`substitute_player` and `move_player` push a snapshot — exactly one,
pushed before any mutation, whose four list fields reference freshly
allocated copies that still hold the pre-call collection contents when
the operation returns — and they do so exactly when their membership
check passes; `add_player` and `change_formation` mutate without
pushing.  A pushed snapshot is not immutable afterwards: `restore`
installs the memento's own list objects as the live collections
without copying, so a mutating operation performed after a restore
rewrites the contents of that previously pushed history entry in
place. -/
theorem history_discipline (s : Alias.St)
    (hdf : s.df < s.lheap.length) (hmf : s.mf < s.lheap.length)
    (hfw : s.fw < s.lheap.length) (hbe : s.bench < s.lheap.length) :
    (∀ i inp, (Alias.add_player s i inp).history = s.history) ∧
    (∀ fs, (Alias.stateOf (Alias.change_formation s fs)).history = s.history) ∧
    (∀ pout pin,
      (¬ (s.pyMem s.all_players pin = true ∧ s.pyMem s.all_players pout = true) →
        Alias.substitute_player s pout pin = .error (.formationError, s)) ∧
      (s.pyMem s.all_players pin = true ∧ s.pyMem s.all_players pout = true →
        (Alias.stateOf (Alias.substitute_player s pout pin)).history
            = s.history ++ [Alias.capturedMemento s] ∧
        (Alias.stateOf (Alias.substitute_player s pout pin)).getL
            (Alias.capturedMemento s).df = s.getL s.df ∧
        (Alias.stateOf (Alias.substitute_player s pout pin)).getL
            (Alias.capturedMemento s).mf = s.getL s.mf ∧
        (Alias.stateOf (Alias.substitute_player s pout pin)).getL
            (Alias.capturedMemento s).fw = s.getL s.fw ∧
        (Alias.stateOf (Alias.substitute_player s pout pin)).getL
            (Alias.capturedMemento s).bench = s.getL s.bench)) ∧
    (∀ a b,
      (¬ s.pyMem s.all_players a = true →
        Alias.move_player s a b = .error (.formationError, s)) ∧
      (s.pyMem s.all_players a = true →
        (Alias.stateOf (Alias.move_player s a b)).history
            = s.history ++ [Alias.capturedMemento s] ∧
        (Alias.stateOf (Alias.move_player s a b)).getL
            (Alias.capturedMemento s).df = s.getL s.df ∧
        (Alias.stateOf (Alias.move_player s a b)).getL
            (Alias.capturedMemento s).mf = s.getL s.mf ∧
        (Alias.stateOf (Alias.move_player s a b)).getL
            (Alias.capturedMemento s).fw = s.getL s.fw ∧
        (Alias.stateOf (Alias.move_player s a b)).getL
            (Alias.capturedMemento s).bench = s.getL s.bench)) ∧
    (∀ m, (Alias.restore s m).gk = m.gk ∧ (Alias.restore s m).df = m.df ∧
      (Alias.restore s m).mf = m.mf ∧ (Alias.restore s m).fw = m.fw ∧
      (Alias.restore s m).bench = m.bench ∧ (Alias.restore s m).lheap = s.lheap ∧
      (Alias.restore s m).heap = s.heap ∧ (Alias.restore s m).history = s.history) := by
  refine ⟨fun i inp => Alias.al_add_player_history s i inp,
          fun fs => Alias.al_change_formation_history s fs, ?_, ?_, ?_⟩
  · intro pout pin
    exact ⟨Alias.al_substitute_check_fail s pout pin,
           fun h => Alias.al_substitute_hist s pout pin h hdf hmf hfw hbe⟩
  · intro a b
    exact ⟨Alias.al_move_check_fail s a b,
           fun h => Alias.al_move_hist s a b h hdf hmf hfw⟩
  · intro m
    exact ⟨rfl, rfl, rfl, rfl, rfl, rfl, rfl, rfl⟩

/-- Witness for C2 (amended): on the concrete fixture, `add_player`
pushes nothing while a passing `substitute_player` pushes exactly the
memento of the pre-call state. -/
theorem history_discipline_witness :
    (Alias.add_player Alias.pushSt 5 (.team (mkP 9 .MF))).history
        = Alias.pushSt.history ∧
    (Alias.stateOf (Alias.substitute_player Alias.pushSt 1 2)).history
        = Alias.pushSt.history ++ [Alias.capturedMemento Alias.pushSt] :=
  ⟨(history_discipline Alias.pushSt (by decide) (by decide) (by decide)
      (by decide)).1 5 (.team (mkP 9 .MF)),
   (((history_discipline Alias.pushSt (by decide) (by decide) (by decide)
      (by decide)).2.2.1 1 2).2 (by decide)).1⟩

/-- Counterexample to claim C6 as stated: push a snapshot, substitute
the defender out, and restore — the defender list holds the same
references as at push time, but re-reading it shows `subbed = true`,
which was false when the snapshot was taken.  The shallow list copy
does not protect the member objects' attributes. -/
theorem restore_roundtrip_cex :
    (restore (stateOf (substitute_player (save_history subSt) 1 2))
        (capturedMemento subSt)).df = subSt.df ∧
    ¬ ((restore (stateOf (substitute_player (save_history subSt) 1 2))
          (capturedMemento subSt)).df.map
        (restore (stateOf (substitute_player (save_history subSt) 1 2))
          (capturedMemento subSt)).deref
      = subSt.df.map subSt.deref) := by
  constructor
  · rfl
  · decide

/-- Claim C6 (amended): a snapshot records the five slot collections at
the reference level.  After pushing a snapshot and then running any
sequence of mutating operations, `restore` brings gk/df/mf/fw/bench
back to exactly the collections captured at push time (gk being the
fresh shallow copy the push allocated); at push time the snapshot's
four list collections equal the live ones and the gk copy holds the
keeper's then-current value.  Attribute mutations made to member
objects after the push stay visible through the restored lists, because
the list copies are shallow. -/
theorem restore_roundtrip_refs (s : St) (cmds : List Cmd) :
    (restore (execList (save_history s) cmds) (capturedMemento s)).gk
        = s.gk.map (fun _ => s.heap.length) ∧
    (restore (execList (save_history s) cmds) (capturedMemento s)).df = s.df ∧
    (restore (execList (save_history s) cmds) (capturedMemento s)).mf = s.mf ∧
    (restore (execList (save_history s) cmds) (capturedMemento s)).fw = s.fw ∧
    (restore (execList (save_history s) cmds) (capturedMemento s)).bench = s.bench ∧
    (save_history s).df = s.df ∧ (save_history s).mf = s.mf ∧
    (save_history s).fw = s.fw ∧ (save_history s).bench = s.bench ∧
    (∀ g, s.gk = some g → (save_history s).deref s.heap.length = s.deref g) := by
  refine ⟨rfl, rfl, rfl, rfl, rfl, save_history_df s, save_history_mf s,
    save_history_fw s, save_history_bench s, ?_⟩
  intro g hg
  simp [save_history, hg, St.deref, List.getD_eq_getElem?_getD, List.getElem?_concat_length]

/-- Witness for C6 (amended): the reference-level round trip on the
substitution fixture, and the gk copy holding the keeper's value. -/
theorem restore_roundtrip_refs_witness :
    (restore (execList (save_history subSt) [Cmd.sub 1 2]) (capturedMemento subSt)).df
      = subSt.df ∧
    (save_history subSt).deref 3 = subSt.deref 0 :=
  ⟨(restore_roundtrip_refs subSt [Cmd.sub 1 2]).2.1,
   (restore_roundtrip_refs subSt [Cmd.sub 1 2]).2.2.2.2.2.2.2.2.2 0 rfl⟩

/-- Counterexample to claim C9 as stated, in two parts.  (i) The second
argument is never membership-checked: swapping an active defender with
an object that is not a member of the active-plus-bench set raises
nothing.  (ii) The symmetric-exchange reading also fails whenever the
two current positions are equal: moving the keeper against a benched
player labelled Goalkeeper succeeds but writes the gk slot twice, so
the first player ends up in no collection while the second is both
keeper and benched; and moving a defender against the defender listed
before it succeeds while leaving the bucket exactly as it was, because
the second value search finds the slot the first write just filled. -/
theorem move_player_unchecked_cex :
    (exOk (move_player moveSt 1 2) = true ∧
     moveSt.pyMem moveSt.all_players 2 = false) ∧
    (exOk (move_player benchGkSt 0 1) = true ∧
     (stateOf (move_player benchGkSt 0 1)).gk = some 1 ∧
     (stateOf (move_player benchGkSt 0 1)).bench = [1] ∧
     0 ∉ (stateOf (move_player benchGkSt 0 1)).all_players) ∧
    (exOk (move_player dfPairSt 2 1) = true ∧
     (stateOf (move_player dfPairSt 2 1)).df = dfPairSt.df ∧
     (stateOf (move_player dfPairSt 2 1)).deref 1 = dfPairSt.deref 1 ∧
     (stateOf (move_player dfPairSt 2 1)).deref 2 = dfPairSt.deref 2) := by
  exact ⟨⟨rfl, rfl⟩, ⟨rfl, rfl, rfl, by decide⟩, rfl, rfl, rfl, rfl⟩

/-- Claim C9 (amended): `move_player(a, b)` raises `FormationError`
exactly when `a` is not a member of the active-plus-bench set — `b` is
never checked — leaving the state unchanged in that case; when `a` is a
member it pushes exactly one snapshot of the pre-call state; and on
success, for two players with different current positions, the two
current-position labels and the two bucket slots are exchanged
symmetrically. -/
theorem move_player_spec (s : St) (a b : Ref) :
    (¬ s.pyMem s.all_players a = true →
      move_player s a b = .error (.formationError, s)) ∧
    (∀ e t, move_player s a b = .error (e, t) → e = .formationError →
      s.pyMem s.all_players a = false) ∧
    (s.pyMem s.all_players a = true →
      (stateOf (move_player s a b)).history = s.history ++ [capturedMemento s]) ∧
    (∀ t, move_player s a b = .ok t → a < s.heap.length → b < s.heap.length →
      (s.deref a).current_position ≠ (s.deref b).current_position →
      (t.deref a).current_position = (s.deref b).current_position ∧
      (t.deref b).current_position = (s.deref a).current_position ∧
      a ∈ occupants t ((s.deref b).current_position) ∧
      b ∈ occupants t ((s.deref a).current_position)) := by
  refine ⟨move_check_fail s a b, ?_, move_hist s a b, ?_⟩
  · intro e t h he
    by_cases hm : s.pyMem s.all_players a = true
    · exfalso
      simp only [move_player, if_neg (not_not_intro hm)] at h
      split at h
      · rename_i et heq
        obtain ⟨e1, t1⟩ := et
        cases h
        obtain ⟨hv, -⟩ := placeInBucket_error_shape _ _ _ _ _ _ heq
        rw [he] at hv
        cases hv
      · rename_i s4 heq1
        split at h
        · rename_i et2 heq2
          obtain ⟨e1, t1⟩ := et2
          cases h
          obtain ⟨hv, -⟩ := placeInBucket_error_shape _ _ _ _ _ _ heq2
          rw [he] at hv
          cases hv
        · cases h
    · simpa using hm
  · intro t ht ha hb hpos
    have hab : a ≠ b := fun hEq => hpos (by rw [hEq])
    have hm : s.pyMem s.all_players a = true := by
      by_contra hm
      rw [move_check_fail s a b hm] at ht
      cases ht
    have hS1a : (save_history s).deref a = s.deref a := save_history_deref s a ha
    have hS1b : (save_history s).deref b = s.deref b := save_history_deref s b hb
    have ha1 : a < (save_history s).heap.length :=
      lt_of_lt_of_le ha (save_history_heap_le s)
    have hb1 : b < (save_history s).heap.length :=
      lt_of_lt_of_le hb (save_history_heap_le s)
    simp only [move_player, if_neg (not_not_intro hm)] at ht
    split at ht
    · cases ht
    · rename_i s4 heq1
      split at ht
      · cases ht
      · rename_i t2 heq2
        cases ht
        obtain ⟨c1a, c1b, c1heap, -, -⟩ := placeInBucket_char _ _ _ _ _ heq1
        obtain ⟨c2a, c2b, c2heap, -, -⟩ := placeInBucket_char _ _ _ _ _ heq2
        have hb2 : b < ((save_history s).setRef a
            { (save_history s).deref a with
              current_position := ((save_history s).deref b).current_position }).heap.length := by
          rw [setRef_heap_length]
          exact hb1
        have hta := deref_congr_heap t _ a (c2heap.trans c1heap)
        have htb := deref_congr_heap t _ b (c2heap.trans c1heap)
        rw [deref_setRef_other _ b a _ hab, deref_setRef_self _ a _ ha1] at hta
        rw [deref_setRef_self _ b _ hb2, deref_setRef_other _ a b _ (Ne.symm hab)] at htb
        refine ⟨?_, ?_, ?_, ?_⟩
        · rw [hta]
          dsimp only
          rw [hS1b]
        · rw [htb]
          dsimp only
          rw [hS1a]
        · have hne : (s.deref b).current_position ≠
              ((save_history s).deref a).current_position := by
            rw [hS1a]
            exact fun hEq => hpos hEq.symm
          have := c2b _ hne
          rw [hS1b] at c1a
          rw [this]
          exact c1a
        · rw [hS1a] at c2a
          exact c2a

/-- Witness for C9 (amended): swapping the defender and the keeper of
the substitution fixture exchanges their positions and slots. -/
theorem move_player_spec_witness :
    ((stateOf (move_player subSt 1 0)).deref 1).current_position =
      (subSt.deref 0).current_position ∧
    ((stateOf (move_player subSt 1 0)).deref 0).current_position =
      (subSt.deref 1).current_position ∧
    1 ∈ occupants (stateOf (move_player subSt 1 0)) ((subSt.deref 0).current_position) ∧
    0 ∈ occupants (stateOf (move_player subSt 1 0)) ((subSt.deref 1).current_position) :=
  (move_player_spec subSt 1 0).2.2.2 (stateOf (move_player subSt 1 0))
    (by rfl) (by decide) (by decide) (by decide)

theorem substitute_ok_shape (s : St) (pout pin : Ref) (t : St)
    (hok : substitute_player s pout pin = .ok t) :
    ∃ s2 bl,
      placeInBucket (save_history s) ((save_history s).deref pout).current_position pout pin
        = .ok s2 ∧
      (s2.setRef pout { s2.deref pout with subbed := true }).pyRemove s2.bench pin
        = some bl ∧
      t = ({ s2.setRef pout { s2.deref pout with subbed := true } with
              bench := bl ++ [pout] } : St).setRef pin
            { ({ s2.setRef pout { s2.deref pout with subbed := true } with
                bench := bl ++ [pout] } : St).deref pin with
              current_position := ((save_history s).deref pout).current_position } := by
  have hcheck : s.pyMem s.all_players pin = true ∧ s.pyMem s.all_players pout = true := by
    by_contra hc
    rw [substitute_check_fail s pout pin hc] at hok
    cases hok
  simp only [substitute_player, if_neg (not_not_intro hcheck)] at hok
  split at hok
  · cases hok
  · rename_i s2 heq1
    split at hok
    · cases hok
    · rename_i bl heq2
      exact ⟨s2, bl, heq1, heq2, (Except.ok.inj hok).symm⟩

/-- Counterexample to claim C1 as stated: for the degenerate pair
out = in (a benched player whose current position label is Goalkeeper),
both membership checks pass, `substitute_player` succeeds — and
afterwards "in" is still a member of the bench, contradicting the
claimed postcondition. -/
theorem substitute_self_cex :
    benchGkSt.pyMem benchGkSt.all_players 1 = true ∧
    exOk (substitute_player benchGkSt 1 1) = true ∧
    (stateOf (substitute_player benchGkSt 1 1)).pyMem
      (stateOf (substitute_player benchGkSt 1 1)).bench 1 = true := by
  exact ⟨rfl, rfl, rfl⟩

/-- Claim C1 (amended): `substitute_player(out, in)` raises
`FormationError` unless both players are members of the
active-plus-bench set, leaving the state unchanged.  When it succeeds
on a well-formed formation with two distinct players, afterwards "in"'s
current position equals "out"'s prior current position, "out" is marked
subbed, "in" is no longer a member of the bench, "out" is a member of
the bench, and exactly one new snapshot — capturing the pre-call
collections — has been pushed onto the history stack. -/
theorem substitute_player_spec (s : St) (pout pin : Ref) :
    (¬ (s.pyMem s.all_players pin = true ∧ s.pyMem s.all_players pout = true) →
      substitute_player s pout pin = .error (.formationError, s)) ∧
    (∀ t, substitute_player s pout pin = .ok t → Wf s → pout ∈ s.all_players →
      pin ∈ s.all_players → pout ≠ pin →
      (t.deref pin).current_position = (s.deref pout).current_position ∧
      (t.deref pout).subbed = true ∧
      t.pyMem t.bench pin = false ∧
      t.pyMem t.bench pout = true ∧
      t.history = s.history ++ [capturedMemento s]) := by
  refine ⟨substitute_check_fail s pout pin, ?_⟩
  intro t hok hwf hpo hpi hne
  obtain ⟨hnd, hlt, hpid⟩ := hwf
  have hpidinj := List.inj_on_of_nodup_map hpid
  have hpo_lt : pout < s.heap.length := hlt pout hpo
  have hpi_lt : pin < s.heap.length := hlt pin hpi
  obtain ⟨s2, bl, heq1, heq2, ht⟩ := substitute_ok_shape s pout pin t hok
  have hfr := placeInBucket_ok_frame _ _ _ _ _ heq1
  have hs2d : ∀ r, s2.deref r = (save_history s).deref r :=
    fun r => deref_congr_heap _ _ r hfr.1
  have hs2len : s2.heap.length = (save_history s).heap.length := by rw [hfr.1]
  have hpo2 : pout < s2.heap.length := by
    rw [hs2len]
    exact lt_of_lt_of_le hpo_lt (save_history_heap_le s)
  have hpi2 : pin < s2.heap.length := by
    rw [hs2len]
    exact lt_of_lt_of_le hpi_lt (save_history_heap_le s)
  set s3 := s2.setRef pout { s2.deref pout with subbed := true } with hs3
  have hbench2 : s2.bench = s.bench := by rw [hfr.2.1, save_history_bench]
  rw [hbench2] at heq2
  have hplayer3 : ∀ q, q < s.heap.length → (s3.deref q).player = (s.deref q).player := by
    intro q hq
    by_cases hqp : q = pout
    · subst hqp
      rw [hs3, deref_setRef_self _ _ _ hpo2]
      show (s2.deref q).player = _
      rw [hs2d, save_history_deref _ _ hq]
    · rw [hs3, deref_setRef_other _ _ _ _ hqp, hs2d, save_history_deref _ _ hq]
  have hpi3 : pin < ({ s3 with bench := bl ++ [pout] } : St).heap.length := by
    show pin < s3.heap.length
    rw [hs3, setRef_heap_length]
    exact hpi2
  have htd_pin : t.deref pin =
      { s3.deref pin with
        current_position := ((save_history s).deref pout).current_position } := by
    rw [ht, deref_setRef_self _ _ _ hpi3]
    rfl
  have htd_pout : t.deref pout = { s2.deref pout with subbed := true } := by
    rw [ht, deref_setRef_other _ _ _ _ hne]
    show s3.deref pout = _
    rw [hs3]
    exact deref_setRef_self _ _ _ hpo2
  have htd_other : ∀ q, q ≠ pin → q ≠ pout → t.deref q = s2.deref q := by
    intro q h1 h2
    rw [ht, deref_setRef_other _ _ _ _ h1]
    show s3.deref q = _
    rw [hs3, deref_setRef_other _ _ _ _ h2]
  have hplayer_t : ∀ q, q < s.heap.length → (t.deref q).player = (s.deref q).player := by
    intro q hq
    by_cases h1 : q = pin
    · subst h1
      rw [htd_pin]
      show (s3.deref q).player = _
      exact hplayer3 q hq
    · by_cases h2 : q = pout
      · subst h2
        rw [htd_pout]
        show (s2.deref q).player = _
        rw [hs2d, save_history_deref _ _ hq]
      · rw [htd_other q h1 h2, hs2d, save_history_deref _ _ hq]
  have hndb : s.bench.Nodup := List.Nodup.of_append_right hnd
  have hinj : ∀ r ∈ s.bench, s3.pyEq r pin = true → r = pin := by
    intro r hr he
    have hrall : r ∈ s.all_players := List.mem_append.mpr (Or.inr hr)
    have hr_lt : r < s.heap.length := hlt r hrall
    have hv : s3.deref r = s3.deref pin := by simpa [St.pyEq] using he
    have hpidv : (s.deref r).player.pid = (s.deref pin).player.pid := by
      rw [← hplayer3 r hr_lt, ← hplayer3 pin hpi_lt, hv]
    exact hpidinj hrall hpi hpidv
  have hrem := pyRemove_props s3 s.bench pin bl heq2 hinj hndb
  have htb : t.bench = bl ++ [pout] := by rw [ht]; rfl
  refine ⟨?_, ?_, ?_, ?_, ?_⟩
  · rw [htd_pin]
    show ((save_history s).deref pout).current_position = _
    rw [save_history_deref _ _ hpo_lt]
  · rw [htd_pout]
  · show t.bench.any (fun r => t.pyEq r pin) = false
    rw [List.any_eq_false]
    intro r hr
    rw [htb] at hr
    have hrcase := List.mem_append.mp hr
    have hgoal : ¬ t.deref r = t.deref pin := by
      rcases hrcase with hbl | hsing
      · obtain ⟨hrb, hrne⟩ := hrem.2 r hbl
        have hr_lt : r < s.heap.length := hlt r (List.mem_append.mpr (Or.inr hrb))
        intro hv
        exact hrne (hpidinj (List.mem_append.mpr (Or.inr hrb)) hpi
          (by rw [← hplayer_t r hr_lt, ← hplayer_t pin hpi_lt, hv]))
      · have hrp : r = pout := by simpa using hsing
        subst hrp
        intro hv
        exact hne (hpidinj hpo hpi
          (by rw [← hplayer_t r hpo_lt, ← hplayer_t pin hpi_lt, hv]))
    simpa [St.pyEq] using hgoal
  · show t.bench.any (fun r => t.pyEq r pout) = true
    rw [List.any_eq_true]
    refine ⟨pout, ?_, pyEq_self t pout⟩
    rw [htb]
    exact List.mem_append.mpr (Or.inr (List.mem_singleton.mpr rfl))
  · have hth : t.history = s2.history := by rw [ht]; rfl
    rw [hth, hfr.2.2.1, save_history_history]

/-- Witness for C1 (amended): substituting the benched defender for the
active one on the concrete fixture satisfies every postcondition. -/
theorem substitute_player_spec_witness :
    ((stateOf (substitute_player subSt 1 2)).deref 2).current_position =
      (subSt.deref 1).current_position ∧
    ((stateOf (substitute_player subSt 1 2)).deref 1).subbed = true ∧
    (stateOf (substitute_player subSt 1 2)).pyMem
      (stateOf (substitute_player subSt 1 2)).bench 2 = false ∧
    (stateOf (substitute_player subSt 1 2)).pyMem
      (stateOf (substitute_player subSt 1 2)).bench 1 = true ∧
    (stateOf (substitute_player subSt 1 2)).history =
      subSt.history ++ [capturedMemento subSt] :=
  (substitute_player_spec subSt 1 2).2 (stateOf (substitute_player subSt 1 2))
    (by rfl) ⟨by decide, by decide, by decide⟩ (by decide) (by decide) (by decide)

/-- Claim C3: on a fresh valid formation, `get_best_players` fills the
11 slot indices in order, each with the remaining roster member whose
intrinsic best position equals the slot's required position and whose
rating for that position is highest (descending, ties in original
roster order) — formalised by equivalence with `specSelect` over the
required-position list — raises `FormationError` exactly when no
eligible candidate remains for a required slot, never assigns one
player to two slots, and on success the bench holds the remaining
roster members, wrapped with their own best positions and sorted
ascending by position rank. -/
theorem get_best_players_spec (s : St) (roster : List PlayerTeam)
    (dfn mfn fwn : Nat)
    (hval : s.formation_string ∈ FORMATION_STRINGS)
    (hn : get_num_players_str s.formation_string = (dfn, mfn, fwn))
    (hdf : s.df = []) (hmf : s.mf = []) (hfw : s.fw = [])
    (hnd : roster.Nodup) :
    match specSelect (slotList dfn mfn fwn) roster with
    | none => ∃ t, get_best_players s roster = .error (.formationError, t)
    | some ar =>
        ∃ t, get_best_players s roster = .ok t ∧
          ar.1.map Prod.fst = slotList dfn mfn fwn ∧
          (∃ g, t.gk = some g ∧
            t.deref g = ⟨(picksOf ar.1 .GK).headD default, .GK, false⟩) ∧
          t.df.map t.deref = (picksOf ar.1 .DF).map (fun p => (⟨p, .DF, false⟩ : PSim)) ∧
          t.mf.map t.deref = (picksOf ar.1 .MF).map (fun p => (⟨p, .MF, false⟩ : PSim)) ∧
          t.fw.map t.deref = (picksOf ar.1 .FW).map (fun p => (⟨p, .FW, false⟩ : PSim)) ∧
          t.bench.map t.deref
            = sortAscBy psimValue (ar.2.map fun p => (⟨p, p.best_position, false⟩ : PSim)) ∧
          (ar.1.map Prod.snd).Nodup ∧
          (∀ q ∈ ar.1.map Prod.snd, q ∈ roster) ∧
          (∀ x, x ∈ ar.2 ↔ x ∈ roster ∧ x ∉ ar.1.map Prod.snd) ∧
          t.history = s.history := by
  obtain ⟨hsum, hbridge⟩ := parse_valid s.formation_string hval
  simp only [hn] at hsum hbridge
  have hgo := gbpGo_spec dfn mfn fwn hsum 11 0 s roster (by omega) hn
    (by simp [hdf]) (by simp [hmf]) (by simp [hfw])
  rw [hbridge] at hgo
  cases hsel : specSelect (slotList dfn mfn fwn) roster with
  | none =>
      rw [hsel] at hgo
      obtain ⟨t, hterr⟩ := hgo
      refine ⟨t, ?_⟩
      simp only [get_best_players, get_num_players, hn, hterr]
  | some ar =>
      rw [hsel] at hgo
      obtain ⟨hfst, hndp, hmemp, hiff⟩ := specSelect_props _ _ _ _ (by rw [hsel]) hnd
      have hgb : get_best_players s roster =
          .ok { (allocBench (applyAssign s ar.1)
                  (ar.2.map fun p => (⟨p, p.best_position, false⟩ : PSim))).1 with
                bench := sortAscRefs
                  (allocBench (applyAssign s ar.1)
                    (ar.2.map fun p => (⟨p, p.best_position, false⟩ : PSim))).1
                  (allocBench (applyAssign s ar.1)
                    (ar.2.map fun p => (⟨p, p.best_position, false⟩ : PSim))).2 } := by
        simp only [get_best_players, get_num_players, hn, hgo]
      obtain ⟨Ah, Afs, Abench, Ahist, Adf, Amf, Afw, Agk, Adfr, Amfr, Afwr⟩ :=
        applyAssign_spec ar.1 s
      obtain ⟨Bh, Bm, Bfs, Bgk, Bdf, Bmf, Bfw, Bbench, Bhist⟩ :=
        allocBench_spec (ar.2.map fun p => (⟨p, p.best_position, false⟩ : PSim))
          (applyAssign s ar.1)
      have hmapd : ∀ (l : List Ref),
          (∀ r ∈ l, r < (applyAssign s ar.1).heap.length) →
          l.map (allocBench (applyAssign s ar.1)
              (ar.2.map fun p => (⟨p, p.best_position, false⟩ : PSim))).1.deref
            = l.map (applyAssign s ar.1).deref := by
        intro l hl
        apply List.map_congr_left
        intro r hr
        show _ = (applyAssign s ar.1).heap.getD r default
        rw [show ∀ (σ : St), σ.deref r = σ.heap.getD r default from fun σ => rfl, Bh,
          List.getD_eq_getElem?_getD, List.getD_eq_getElem?_getD,
          List.getElem?_append_left (hl r hr)]
      obtain ⟨q, rest, ar1⟩ : ∃ q rest, ar.1 = (Positions.GK, q) :: rest := by
        cases har : ar.1 with
        | nil =>
            rw [har] at hfst
            simp [slotList] at hfst
        | cons q0 rest0 =>
            refine ⟨q0.2, rest0, ?_⟩
            have hq1 : q0.1 = Positions.GK := by
              rw [har] at hfst
              have := congrArg List.head? hfst
              simpa [slotList] using this
            rw [← hq1]
      have hrest : rest.map Prod.fst =
          List.replicate dfn Positions.DF ++ (List.replicate mfn Positions.MF ++
            List.replicate fwn Positions.FW) := by
        rw [ar1] at hfst
        simpa [slotList] using hfst
      have hng : picksOf rest .GK = [] := by
        have hfil : rest.filter (fun z => z.1 == Positions.GK) = [] := by
          rw [List.filter_eq_nil_iff]
          intro z hz
          have hz1 : z.1 ∈ rest.map Prod.fst := List.mem_map_of_mem _ hz
          rw [hrest] at hz1
          rcases List.mem_append.mp hz1 with h1 | h2
          · have := List.eq_of_mem_replicate h1
            simp [this]
          · rcases List.mem_append.mp h2 with h3 | h4
            · have := List.eq_of_mem_replicate h3
              simp [this]
            · have := List.eq_of_mem_replicate h4
              simp [this]
        rw [picksOf, hfil]
        rfl
      obtain ⟨hgk1, hgk2⟩ := applyAssign_gk_head s q rest hng
      rw [← ar1] at hgk1 hgk2
      have hglt : s.heap.length < (applyAssign s ar.1).heap.length := by
        rw [Ah, ar1]
        simp
      refine ⟨_, hgb, hfst, ⟨s.heap.length, ?_, ?_⟩, ?_, ?_, ?_, ?_, hndp, hmemp, hiff, ?_⟩
      · show (allocBench (applyAssign s ar.1)
            (ar.2.map fun p => (⟨p, p.best_position, false⟩ : PSim))).1.gk = _
        rw [Bgk, hgk1]
      · show (allocBench (applyAssign s ar.1)
            (ar.2.map fun p => (⟨p, p.best_position, false⟩ : PSim))).1.deref
              s.heap.length = _
        have := hmapd [s.heap.length] (by simpa using hglt)
        simp only [List.map_cons, List.map_nil] at this
        rw [List.cons_eq_cons] at this
        rw [this.1, hgk2, ar1, picksOf_cons_self, hng]
        rfl
      · show List.map (allocBench (applyAssign s ar.1)
              (ar.2.map fun p => (⟨p, p.best_position, false⟩ : PSim))).1.deref
            ((allocBench (applyAssign s ar.1)
              (ar.2.map fun p => (⟨p, p.best_position, false⟩ : PSim))).1.df) = _
        rw [Bdf, hmapd _ (Adfr (by simp [hdf])), Adf, hdf]
        simp
      · show List.map (allocBench (applyAssign s ar.1)
              (ar.2.map fun p => (⟨p, p.best_position, false⟩ : PSim))).1.deref
            ((allocBench (applyAssign s ar.1)
              (ar.2.map fun p => (⟨p, p.best_position, false⟩ : PSim))).1.mf) = _
        rw [Bmf, hmapd _ (Amfr (by simp [hmf])), Amf, hmf]
        simp
      · show List.map (allocBench (applyAssign s ar.1)
              (ar.2.map fun p => (⟨p, p.best_position, false⟩ : PSim))).1.deref
            ((allocBench (applyAssign s ar.1)
              (ar.2.map fun p => (⟨p, p.best_position, false⟩ : PSim))).1.fw) = _
        rw [Bfw, hmapd _ (Afwr (by simp [hfw])), Afw, hfw]
        simp
      · show List.map (allocBench (applyAssign s ar.1)
              (ar.2.map fun p => (⟨p, p.best_position, false⟩ : PSim))).1.deref
            (sortAscRefs (allocBench (applyAssign s ar.1)
                (ar.2.map fun p => (⟨p, p.best_position, false⟩ : PSim))).1
              ((allocBench (applyAssign s ar.1)
                (ar.2.map fun p => (⟨p, p.best_position, false⟩ : PSim))).2)) = _
        rw [sortAscRefs, map_sortAscBy, Bm]
      · show (allocBench (applyAssign s ar.1)
            (ar.2.map fun p => (⟨p, p.best_position, false⟩ : PSim))).1.history = _
        rw [Bhist, Ahist]

/-- Witness for C3: the lineup theorem applied to a fresh 4-4-2 formation
and the concrete 13-player roster, with every hypothesis discharged by
computation. -/
theorem get_best_players_spec_witness :
    lineupSt.formation_string ∈ FORMATION_STRINGS ∧
    rosterW.Nodup ∧
    (match specSelect (slotList 4 4 2) rosterW with
      | none => ∃ t, get_best_players lineupSt rosterW = .error (.formationError, t)
      | some ar =>
          ∃ t, get_best_players lineupSt rosterW = .ok t ∧
            ar.1.map Prod.fst = slotList 4 4 2 ∧
            (∃ g, t.gk = some g ∧
              t.deref g = ⟨(picksOf ar.1 .GK).headD default, .GK, false⟩) ∧
            t.df.map t.deref
              = (picksOf ar.1 .DF).map (fun p => (⟨p, .DF, false⟩ : PSim)) ∧
            t.mf.map t.deref
              = (picksOf ar.1 .MF).map (fun p => (⟨p, .MF, false⟩ : PSim)) ∧
            t.fw.map t.deref
              = (picksOf ar.1 .FW).map (fun p => (⟨p, .FW, false⟩ : PSim)) ∧
            t.bench.map t.deref
              = sortAscBy psimValue
                  (ar.2.map fun p => (⟨p, p.best_position, false⟩ : PSim)) ∧
            (ar.1.map Prod.snd).Nodup ∧
            (∀ q ∈ ar.1.map Prod.snd, q ∈ rosterW) ∧
            (∀ x, x ∈ ar.2 ↔ x ∈ rosterW ∧ x ∉ ar.1.map Prod.snd) ∧
            t.history = lineupSt.history) :=
  ⟨by decide, by decide,
    get_best_players_spec lineupSt rosterW 4 4 2 (by decide) (by decide)
      rfl rfl rfl (by decide)⟩

end OFM
